import Mathlib

/-!
# Summit source / Summit stim sink: a verification development

Shallow embedding of `SummitSource::deserialize`, `SummitSource::process`
(src/OpenEphysPlugins/SummitSource/SummitSource.cpp) and
`SummitStimSink::process` (src/OpenEphysPlugins/SummitStimSink/SummitStimSink.cpp).

Conventions of the embedding.

* C `int` values are integers (`Int`). The arithmetic of the sample counter, whose
  operands `m_packetNumPrev` and `m_packetDropSize` are never assigned and can hold
  any 32-bit pattern, is 32-bit two's-complement: every result goes through `wrap32`.
  The cycle counters (`m_loop`, the cursors of the channel loop) stay far from the
  bounds of an `int` and are not wrapped.
* C `float` is an abstract type `F` with the operations the code applies to it
  (`FloatOps`); every general theorem holds for every choice of these operations.
  `ieeeOps` is one concrete choice, used to evaluate the code on concrete packets.
* Arrays reached through bare pointers (`float** data`, `int* packNums`, the host
  buffer) are maps from indices to values; a `for` loop over `0 .. n-1` is
  `forLoop n body`. `INSData` has `nChans` rows (line 325): `process` reading a row
  with a larger index is an out-of-bounds read, recorded in the `fault` flag of the
  channel loop, and the cycle has no result. The rows themselves are taken to be long
  enough for the packet.
* The reply message is a list of bytes. A read that would go beyond its end is
  undefined behaviour in the source; the model records it in the `overrun` flag
  and stops reading there.
* `new double[length]` with a negative `length` throws: the `threw` flag.
-/

/-- A `for (int i = 0; i < n; i++) body` loop over a state of type `σ`. -/
def forLoop {σ : Type} (n : Nat) (body : Nat → σ → σ) (init : σ) : σ :=
  (List.range n).foldl (fun s i => body i s) init

/-- One byte of a message. -/
abbrev Byte := Fin 256

/-- Little-endian value of a run of bytes. -/
def leValue : List Byte → Nat
  | [] => 0
  | b :: bs => b.val + 256 * leValue bs

/-- Little-endian value of the `n` bytes at offset `off` (what `memcpy(&x, p + off, n)`
    stores on a little-endian machine); `none` when those bytes are not all inside `raw`. -/
def readLE (raw : List Byte) (off n : Nat) : Option Nat :=
  if off + n ≤ raw.length then some (leValue ((raw.drop off).take n)) else none

/-- Two's-complement reading of a 32-bit pattern as a C `int`. -/
def toInt32 (u : Nat) : Int :=
  if u < 2 ^ 31 then (u : Int) else (u : Int) - 2 ^ 32

/-- The 32-bit `int` that holds the low 32 bits of `x`: the result of an `int`
    operation whose exact value is `x`. -/
def wrap32 (x : Int) : Int :=
  (x + 2147483648) % 4294967296 - 2147483648

/-- The integer `x` is a value of a 32-bit `int`: an `int` operation whose exact
    result is `x` does not overflow. -/
def fitsInt32 (x : Int) : Prop :=
  -2147483648 ≤ x ∧ x ≤ 2147483647

instance (x : Int) : Decidable (fitsInt32 x) := by
  unfold fitsInt32
  exact inferInstance

/-- The operations the source applies to `float` values, over an abstract carrier `F`.
    `ofDouble bits` is `(float)d` for the `double` whose 64-bit pattern is `bits`;
    `doubleToInt bits` is `(int)d`; `ofInt` is the implicit `int → float` conversion. -/
structure FloatOps (F : Type) where
  ofDouble : Nat → F
  doubleToInt : Nat → Int
  ofInt : Int → F
  add : F → F → F
  sub : F → F → F
  mul : F → F → F
  div : F → F → F

/-- Store `v` at `a[r][c]` of a two-dimensional array. -/
def set2 {α : Type} (a : Nat → Nat → α) (r c : Nat) (v : α) : Nat → Nat → α :=
  fun r' c' => if r' = r ∧ c' = c then v else a r' c'

/-- Store `v` at `a[i]` of a one-dimensional array. -/
def set1 {α : Type} (a : Nat → α) (i : Nat) (v : α) : Nat → α :=
  fun i' => if i' = i then v else a i'

namespace SummitSource

/-- The variables of `deserialize` while it runs: the out-parameter `length`, the read
    cursor `doubleData` (as a byte offset into the reply), the two output arrays,
    whether a read beyond the end of the reply has been reached, and whether the
    allocation of the scratch array threw. -/
structure Deserialized (F : Type) where
  length : Int
  doubleData : Nat
  data : Nat → Nat → F
  packNums : Nat → Int
  overrun : Bool
  threw : Bool

/-- Body of the inner loop (lines 390-395): copy one channel value of time point
    `iPoint` and advance the cursor. -/
def channelStep {F : Type} (ops : FloatOps F) (reply : List Byte) (iPoint iChans : Nat)
    (st : Deserialized F) : Deserialized F :=
  if st.overrun then st else
  match readLE reply st.doubleData 8 with
  | none => { st with overrun := true }
  | some bits =>
    { st with data := set2 st.data iChans iPoint (ops.ofDouble bits),
              doubleData := st.doubleData + 8 }

/-- Lines 397-400: the packet number of time point `iPoint`. -/
def packetStep {F : Type} (ops : FloatOps F) (reply : List Byte) (iPoint : Nat)
    (st : Deserialized F) : Deserialized F :=
  if st.overrun then st else
  match readLE reply st.doubleData 8 with
  | none => { st with overrun := true }
  | some bits =>
    { st with packNums := set1 st.packNums iPoint (ops.doubleToInt bits),
              doubleData := st.doubleData + 8 }

/-- Body of the outer loop (lines 387-401). -/
def pointStep {F : Type} (ops : FloatOps F) (reply : List Byte) (nChans iPoint : Nat)
    (st : Deserialized F) : Deserialized F :=
  packetStep ops reply iPoint (forLoop nChans (channelStep ops reply iPoint) st)

/-- `SummitSource::deserialize` (lines 342-409). `data` and `packNums` are the arrays
    the caller passes in. Lines 379-383 allocate, for each of the `nChans` channels, a
    scratch array `new double[length]`: with a negative `length` and at least one
    channel this throws `std::bad_array_new_length` and the function does not return,
    which `threw` records (`length` has been stored by then; the loops, which come
    after, store nothing). Otherwise the scratch array only carries each value from
    the reply to `data`. When the reply has fewer than 4 bytes the length itself cannot
    be read: `overrun` is set and `length` is meaningless. -/
def deserialize {F : Type} (ops : FloatOps F) (nChans : Nat) (reply : List Byte)
    (data : Nat → Nat → F) (packNums : Nat → Int) : Deserialized F :=
  match readLE reply 0 4 with
  | none =>
    { length := 0, doubleData := 0, data := data, packNums := packNums, overrun := true,
      threw := false }
  | some u =>
    if 0 < nChans ∧ toInt32 u < 0 then
      { length := toInt32 u, doubleData := 4, data := data, packNums := packNums,
        overrun := false, threw := true }
    else
      forLoop (toInt32 u).toNat (pointStep ops reply nChans)
        { length := toInt32 u, doubleData := 4, data := data, packNums := packNums,
          overrun := false, threw := false }

/-- Channel type tags of the host framework (`getType()`); `process` has a case for
    the first two only. -/
inductive ChannelType where
  | HEADSTAGE_CHANNEL
  | AUX_CHANNEL
  | ADC_CHANNEL
  deriving DecidableEq, Repr

/-- The member variables of `SummitSource` that `process` reads or writes.
    `m_packetNumPrev` and `m_packetDropSize` are declared in the header and assigned
    nowhere in the source, so their values are whatever the object holds. -/
structure SourceState (F : Type) where
  nChans : Nat
  m_loop : Int
  m_featuresHistory : Int
  m_sampleCounter : Int
  m_packetNumPrev : Int
  m_packetDropSize : Int
  chanMeans : Nat → F
  INSData : Nat → Nat → F
  packetNumbers : Nat → Int

/-- The state a freshly constructed and enabled `SummitSource` starts from: the
    constructor sets `m_loop = 0` and `m_featuresHistory = 15`, `enable` sets `nChans`
    and `m_sampleCounter = 0`; everything else is uninitialised and given by `junk`. -/
def SourceState.fresh {F : Type} (nChans : Nat) (junk : SourceState F) : SourceState F :=
  { junk with nChans := nChans, m_loop := 0, m_featuresHistory := 15, m_sampleCounter := 0 }

/-- The condition of line 154, under which the counter is advanced by whole nominal
    packets instead of by the count of decoded time points; the subtraction is a
    32-bit `int` subtraction. -/
def gapBranch (m_packetNumPrev first : Int) : Prop :=
  wrap32 (m_packetNumPrev - first) > 1

instance (m_packetNumPrev first : Int) : Decidable (gapBranch m_packetNumPrev first) := by
  unfold gapBranch
  exact inferInstance

/-- Lines 154-161: the new value of `m_sampleCounter`, every operation a 32-bit `int`
    operation. -/
def countSamples (m_sampleCounter m_packetNumPrev first packetLength m_packetDropSize : Int) :
    Int :=
  if gapBranch m_packetNumPrev first then
    wrap32 (m_sampleCounter
      + wrap32 (m_packetDropSize * wrap32 (wrap32 (m_packetNumPrev - first) - 1)))
  else
    wrap32 (m_sampleCounter + packetLength)

/-- Body of the loop of lines 175-183: the mean of channel `iChan`, accumulated in
    place in `chanMeans[iChan]`. -/
def meanStep {F : Type} (ops : FloatOps F) (INSData : Nat → Nat → F) (packetLength : Int)
    (iChan : Nat) (chanMeans : Nat → F) : Nat → F :=
  let zeroed := set1 chanMeans iChan (ops.ofInt 0)
  let summed := forLoop packetLength.toNat
    (fun iSample cm => set1 cm iChan (ops.add (cm iChan) (INSData iChan iSample))) zeroed
  set1 summed iChan (ops.div (summed iChan) (ops.ofInt packetLength))

/-- Lines 173-184: the baseline, computed when `m_loop == 0` and at no other time. -/
def computeMeans {F : Type} (ops : FloatOps F) (nChans : Nat) (m_loop : Int)
    (INSData : Nat → Nat → F) (packetLength : Int) (chanMeans : Nat → F) : Nat → F :=
  if m_loop = 0 then forLoop nChans (meanStep ops INSData packetLength) chanMeans
  else chanMeans

/-- The host buffer and the three cursors of the channel loop (lines 212-215), and
    whether the loop has read a row of `INSData` that does not exist. -/
structure FillState (F : Type) where
  buffer : Nat → Nat → F
  iHeadstage : Nat
  iChanHist : Nat
  iHist : Nat
  fault : Bool

/-- Store `v iSample` in samples `0 .. packetLength-1` of output channel `iChan`
    (the `for (iSample ...) *(samplePtr + iSample) = ...` loops). -/
def writeSamples {F : Type} (packetLength : Int) (iChan : Nat) (v : Nat → F)
    (buffer : Nat → Nat → F) : Nat → Nat → F :=
  forLoop packetLength.toNat (fun iSample b => set2 b iChan iSample (v iSample)) buffer

/-- The `HEADSTAGE_CHANNEL` case (lines 231-247). The sample is read from
    `INSData[iChan]`, the mean from `chanMeans[iHeadstage]`. When the sample loop runs
    (`packetLength ≥ 1`) and `iChan` is not one of the `nChans` rows of `INSData`, the
    read is out of bounds. -/
def headstageCase {F : Type} (ops : FloatOps F) (s : SourceState F) (packetLength : Int)
    (iChan : Nat) (st : FillState F) : FillState F :=
  if (st.iHeadstage : Int) > (s.nChans : Int) - 1 then st
  else if 1 ≤ packetLength ∧ s.nChans ≤ iChan then { st with fault := true }
  else
    { st with
      buffer := writeSamples packetLength iChan
        (fun iSample =>
          ops.sub (ops.mul (s.INSData iChan iSample) (ops.ofInt 1000))
            (s.chanMeans st.iHeadstage))
        st.buffer,
      iHeadstage := st.iHeadstage + 1 }

/-- The `AUX_CHANNEL` case (lines 249-285). Row `iChanHist` of `INSData` is read in
    the sample loop of line 254 when that loop runs, and at lines 275-280 whenever
    history is added; it must be one of the `nChans` rows. -/
def auxCase {F : Type} (ops : FloatOps F) (s : SourceState F) (packetLength : Int)
    (iChan : Nat) (st : FillState F) : FillState F :=
  if (st.iHist : Int) > packetLength - 1 then
    if 1 ≤ packetLength ∧ s.nChans ≤ st.iChanHist then { st with fault := true }
    else
      { st with
        buffer := writeSamples packetLength iChan
          (fun _ => ops.mul (s.INSData st.iChanHist (packetLength - 1).toNat) (ops.ofInt 1000))
          st.buffer }
  else
    let st1 : FillState F :=
      if (st.iHist : Int) > s.m_featuresHistory then
        { st with iHist := 0, iChanHist := st.iChanHist + 1 }
      else st
    if st1.iChanHist > 0 then st1
    else if s.nChans ≤ st1.iChanHist then { st1 with fault := true }
    else
      { st1 with
        buffer := writeSamples packetLength iChan
          (fun _ =>
            ops.mul (s.INSData st1.iChanHist (packetLength - 1 - (st1.iHist : Int)).toNat)
              (ops.ofInt 1000))
          st1.buffer,
        iHist := st1.iHist + 1 }

/-- The `switch` of lines 228-287 for output channel `iChan` of type `t`. After an
    out-of-bounds read nothing more is done. -/
def channelCase {F : Type} (ops : FloatOps F) (s : SourceState F) (packetLength : Int)
    (t : ChannelType) (iChan : Nat) (st : FillState F) : FillState F :=
  if st.fault then st
  else
    match t with
    | ChannelType.HEADSTAGE_CHANNEL => headstageCase ops s packetLength iChan st
    | ChannelType.AUX_CHANNEL => auxCase ops s packetLength iChan st
    | ChannelType.ADC_CHANNEL => st

/-- The loop of lines 224-288 over the output channels `iChan, iChan+1, ...`, whose
    types are listed in `channels`. -/
def channelLoop {F : Type} (ops : FloatOps F) (s : SourceState F) (packetLength : Int) :
    List ChannelType → Nat → FillState F → FillState F
  | [], _, st => st
  | t :: rest, iChan, st =>
    channelLoop ops s packetLength rest (iChan + 1) (channelCase ops s packetLength t iChan st)

/-- The call `deserialize(INSData, packetNumbers, packetLength, &reply)` of line 153. -/
def decoded {F : Type} (ops : FloatOps F) (s : SourceState F) (reply : List Byte) :
    Deserialized F :=
  deserialize ops s.nChans reply s.INSData s.packetNumbers

/-- Lines 154-184 of `process`, on the packet `d` that `deserialize` left in `INSData`,
    `packetNumbers` and `packetLength`: the object after the counter update and the
    baseline computation. -/
def counted {F : Type} (ops : FloatOps F) (s : SourceState F) (d : Deserialized F) :
    SourceState F :=
  let packetLength := d.length
  let s1 : SourceState F :=
    { s with
      INSData := d.data,
      packetNumbers := d.packNums,
      m_sampleCounter :=
        countSamples s.m_sampleCounter s.m_packetNumPrev (d.packNums 0) packetLength
          s.m_packetDropSize }
  { s1 with
    chanMeans := computeMeans ops s1.nChans s1.m_loop s1.INSData packetLength s1.chanMeans }

/-- Lines 212-288 of `process`: the channel loop over the whole layout. -/
def filled {F : Type} (ops : FloatOps F) (channels : List ChannelType)
    (s : SourceState F) (buffer : Nat → Nat → F) (d : Deserialized F) : FillState F :=
  channelLoop ops (counted ops s d) d.length channels 0
    { buffer := buffer, iHeadstage := 0, iChanHist := 0, iHist := 0, fault := false }

/-- Lines 154-303 of `process` when the channel loop runs to its end: the new object
    state, the host buffer, and the sample count passed to `setNumSamples`. -/
def processDecoded {F : Type} (ops : FloatOps F) (channels : List ChannelType)
    (s : SourceState F) (buffer : Nat → Nat → F) (d : Deserialized F) :
    SourceState F × (Nat → Nat → F) × Int :=
  ({ counted ops s d with m_loop := (counted ops s d).m_loop + 1 },
    (filled ops channels s buffer d).buffer, d.length)

/-- `SummitSource::process` (lines 106-304), one acquisition cycle on the reply the
    device sent. `channels` is the output channel layout and `buffer` the host buffer.
    The result is `none` when the cycle does not run to its end: `deserialize` read
    beyond the reply or threw, or the channel loop read a row beyond `INSData`.
    Writing to the debug and profiling files is not represented. -/
def process {F : Type} (ops : FloatOps F) (channels : List ChannelType) (s : SourceState F)
    (buffer : Nat → Nat → F) (reply : List Byte) :
    Option (SourceState F × (Nat → Nat → F) × Int) :=
  if (decoded ops s reply).overrun then none
  else if (decoded ops s reply).threw then none
  else if (filled ops channels s buffer (decoded ops s reply)).fault then none
  else some (processDecoded ops channels s buffer (decoded ops s reply))

/-- A run of acquisition cycles: each cycle receives the host buffer of its tick and
    the reply of the device. `none` as soon as one cycle does not run to its end. -/
def cycles {F : Type} (ops : FloatOps F) (channels : List ChannelType) :
    SourceState F → List ((Nat → Nat → F) × List Byte) → Option (SourceState F)
  | s, [] => some s
  | s, (buffer, reply) :: rest =>
    match process ops channels s buffer reply with
    | none => none
    | some (s', _, _) => cycles ops channels s' rest

/-- The sample count a reply declares: its length prefix as a C `int`, `none` when the
    reply has fewer than 4 bytes. -/
def declaredLength (reply : List Byte) : Option Int :=
  (readLE reply 0 4).map toInt32

/-- Arithmetic mean of samples `0 .. packetLength-1` of device channel `c`: their sum,
    added up from zero in sample order, divided by the count. -/
def channelMean {F : Type} (ops : FloatOps F) (INSData : Nat → Nat → F) (packetLength : Int)
    (c : Nat) : F :=
  ops.div
    (((List.range packetLength.toNat).map (INSData c)).foldl ops.add (ops.ofInt 0))
    (ops.ofInt packetLength)

end SummitSource

namespace SummitStimSink

/-- The decision state of `SummitStimSink`: `m_class`, the debounce counter `m_loop`
    and `m_prevClass`. -/
structure SinkState where
  m_class : Int
  m_loop : Int
  m_prevClass : Int
  deriving DecidableEq, Repr

/-- `SummitStimSink::process` (lines 98-205), one tick. `nSamples` is the sample count
    of the decision input channel and `sample` its first sample converted to `int`
    (`m_class = *readPtr`). The result is the new state and the class published on the
    socket, if any (the message is the first character of its decimal text). -/
def process (s : SinkState) (nSamples : Int) (sample : Int) : SinkState × Option Int :=
  if nSamples = 0 then (s, none)
  else
    let s1 : SinkState := { s with m_class := sample }
    let s2 : SinkState :=
      if s1.m_loop < 11 then { s1 with m_class := s1.m_prevClass, m_loop := s1.m_loop + 1 }
      else s1
    let s3 : SinkState :=
      if s2.m_prevClass ≠ s2.m_class then { s2 with m_loop := 0, m_prevClass := s2.m_class }
      else s2
    let s4 : SinkState := { s3 with m_prevClass := s3.m_class }
    ({ s4 with m_loop := s4.m_loop + 1 }, some s4.m_class)

/-- The state after ticks `0 .. n-1`, each delivering one sample, tick `i` carrying
    the raw class `raw i`. -/
def ticks (s : SinkState) (raw : Nat → Int) : Nat → SinkState
  | 0 => s
  | n + 1 => (process (ticks s raw n) 1 (raw n)).1

/-- The class published at tick `n` of such a run. -/
def published (s : SinkState) (raw : Nat → Int) (n : Nat) : Option Int :=
  (process (ticks s raw n) 1 (raw n)).2

/-- A raw class sequence that is `a` before cycle `k` and `b` from cycle `k` on. -/
def changeAt (k : Nat) (a b : Int) : Nat → Int :=
  fun n => if n < k then a else b

/-- A freshly constructed sink (`m_loop = 0`) whose stabilized class is `a`;
    `m_class` is not initialised by the constructor. -/
def freshSink (a m_class : Int) : SinkState :=
  { m_class := m_class, m_loop := 0, m_prevClass := a }

end SummitStimSink

/-! ## A concrete choice of the float operations -/

/-- The value of the IEEE-754 binary64 number with bit pattern `bits`; `none` for an
    infinity or a NaN. -/
def decodeDouble (bits : Nat) : Option ℚ :=
  let e : Nat := bits / 2 ^ 52 % 2048
  let m : Nat := bits % 2 ^ 52
  if e = 2047 then none
  else
    let mag : ℚ :=
      if e = 0 then mkRat m (2 ^ 1074) else mkRat ((2 ^ 52 + m) * 2 ^ (e - 1)) (2 ^ 1074)
    some (if bits / 2 ^ 63 % 2 = 1 then -mag else mag)

/-- `(int)d` for the binary64 number with bit pattern `bits`: truncation toward zero.
    Where the value does not fit an `int` (undefined in C++) the result is `-2^31`,
    which is what the x86 conversion instruction delivers. -/
def truncDouble (bits : Nat) : Int :=
  let e : Nat := bits / 2 ^ 52 % 2048
  let m : Nat := bits % 2 ^ 52
  let mag : Nat :=
    if e = 0 then 0
    else if e < 1075 then (2 ^ 52 + m) / 2 ^ (1075 - e)
    else (2 ^ 52 + m) * 2 ^ (e - 1075)
  let v : Int := if bits / 2 ^ 63 % 2 = 1 then -(mag : Int) else (mag : Int)
  if e = 2047 ∨ v < -2 ^ 31 ∨ 2 ^ 31 ≤ v then -2 ^ 31 else v

/-- Lift a binary operation on finite values; a non-finite operand gives a non-finite
    result. -/
def liftFinite (f : ℚ → ℚ → ℚ) : Option ℚ → Option ℚ → Option ℚ
  | some x, some y => some (f x y)
  | _, _ => none

/-- Float operations with finite values kept exact (rounding is not represented) and
    one value, `none`, for NaN and the infinities: a non-finite operand or a division
    by zero gives `none`. It agrees with single-precision arithmetic wherever that is
    exact, which is the case for the small integers of the packets evaluated below. -/
def ieeeOps : FloatOps (Option ℚ) where
  ofDouble := decodeDouble
  doubleToInt := truncDouble
  ofInt := fun i => some (i : ℚ)
  add := liftFinite (fun x y => x + y)
  sub := liftFinite (fun x y => x - y)
  mul := liftFinite (fun x y => x * y)
  div := fun a b =>
    match a, b with
    | some x, some y => if y = 0 then none else some (x / y)
    | _, _ => none

/-- An array holding the same value everywhere. -/
def constArray1 {α : Type} (v : α) : Nat → α := fun _ => v

/-- A two-dimensional array holding the same value everywhere. -/
def constArray2 {α : Type} (v : α) : Nat → Nat → α := fun _ _ => v

namespace SummitSource

/-- Number of whole 8-byte values the reply holds after its 4-byte length prefix. -/
def wholeValues (raw : List Byte) : Nat := (raw.length - 4) / 8

/-- The 64-bit pattern of the `v`-th 8-byte value after the length prefix. -/
def valueBits (raw : List Byte) (v : Nat) : Nat := leValue ((raw.drop (4 + 8 * v)).take 8)

/-- What `deserialize` has done when its loops have come to the `V`-th value of the
    reply (values are counted in reading order): the values that are whole inside
    the reply have been stored, and the cursor stands at the first value that is not. -/
def Reached {F : Type} (ops : FloatOps F) (n : Nat) (raw : List Byte)
    (data0 : Nat → Nat → F) (pn0 : Nat → Int) (L : Int) (V : Nat)
    (st : Deserialized F) : Prop :=
  st.length = L ∧
  st.overrun = decide (wholeValues raw < V) ∧
  st.doubleData = 4 + 8 * min V (wholeValues raw) ∧
  (∀ c i, st.data c i =
    if c < n ∧ i * (n + 1) + c < min V (wholeValues raw) then
      ops.ofDouble (valueBits raw (i * (n + 1) + c))
    else data0 c i) ∧
  (∀ i, st.packNums i =
    if i * (n + 1) + n < min V (wholeValues raw) then
      ops.doubleToInt (valueBits raw (i * (n + 1) + n))
    else pn0 i)

end SummitSource

/-! ## Concrete packets -/

/-- A complete reply for one device channel and two time points: samples 1.0 and 2.0,
    packet numbers 7 and 8 (36 bytes). -/
def replyTwoPoints : List Byte :=
  [2, 0, 0, 0,
   0, 0, 0, 0, 0, 0, 0xF0, 0x3F,   0, 0, 0, 0, 0, 0, 0x1C, 0x40,
   0, 0, 0, 0, 0, 0, 0x00, 0x40,   0, 0, 0, 0, 0, 0, 0x20, 0x40]

/-- The same reply cut after its first time point: it declares two time points for
    one device channel (36 bytes) and holds 20 bytes. -/
def replyCutShort : List Byte :=
  [2, 0, 0, 0,
   0, 0, 0, 0, 0, 0, 0xF0, 0x3F,   0, 0, 0, 0, 0, 0, 0x1C, 0x40]

namespace SummitSource

/-- An object whose uninitialised members hold zero and whose arrays hold NaN and zero. -/
def blankState : SourceState (Option ℚ) :=
  { nChans := 0, m_loop := 0, m_featuresHistory := 0, m_sampleCounter := 0,
    m_packetNumPrev := 0, m_packetDropSize := 0,
    chanMeans := constArray1 none, INSData := constArray2 none, packetNumbers := constArray1 0 }

end SummitSource

/-- A complete reply for two device channels and one time point: samples 1.0 (channel
    0) and 2.0 (channel 1), packet number 7 (28 bytes). -/
def replyTwoChannels : List Byte :=
  [1, 0, 0, 0,
   0, 0, 0, 0, 0, 0, 0xF0, 0x3F,   0, 0, 0, 0, 0, 0, 0x00, 0x40,
   0, 0, 0, 0, 0, 0, 0x1C, 0x40]

/-- A reply that carries no time point: the length prefix 0 and nothing else. -/
def replyEmpty : List Byte := [0, 0, 0, 0]

/-- A complete reply for one device channel and one time point: sample 2.0, packet
    number 8 (20 bytes). -/
def replyOnePoint : List Byte :=
  [1, 0, 0, 0,
   0, 0, 0, 0, 0, 0, 0x00, 0x40,   0, 0, 0, 0, 0, 0, 0x20, 0x40]

namespace SummitSource

/-- The object after one cycle on the two-point packet, from the fresh state with one
    device channel and the layout of one headstage channel. -/
def afterTwoPoints : SourceState (Option ℚ) :=
  (processDecoded ieeeOps [ChannelType.HEADSTAGE_CHANNEL] (SourceState.fresh 1 blankState)
    (constArray2 none) (decoded ieeeOps (SourceState.fresh 1 blankState) replyTwoPoints)).1

end SummitSource

/-- A complete reply for one device channel and `k` time points, each with sample 1.0
    and packet number 7 (`4 + 16*k` bytes). -/
def replyConstant (k : Byte) : List Byte :=
  [k, 0, 0, 0] ++
    (List.replicate k.val
      ([0, 0, 0, 0, 0, 0, 0xF0, 0x3F,   0, 0, 0, 0, 0, 0, 0x1C, 0x40] : List Byte)).flatten

/-- A reply whose length prefix is -1 (`ff ff ff ff`) and nothing else. -/
def replyNegative : List Byte := [255, 255, 255, 255]

/-! # Theorems -/

/-! ## Loops and index arithmetic -/

theorem forLoop_zero {σ : Type} (body : Nat → σ → σ) (s : σ) : forLoop 0 body s = s := by
  simp [forLoop]

theorem forLoop_succ {σ : Type} (n : Nat) (body : Nat → σ → σ) (s : σ) :
    forLoop (n + 1) body s = body n (forLoop n body s) := by
  simp [forLoop, List.range_succ, List.foldl_append]

/-- Values of earlier time points come earlier in the reply. -/
theorem index_lt {i L c n : Nat} (hi : i < L) (hc : c ≤ n) :
    i * (n + 1) + c < L * (n + 1) := by
  have h1 : (i + 1) * (n + 1) ≤ L * (n + 1) := Nat.mul_le_mul_right _ hi
  have h2 : (i + 1) * (n + 1) = i * (n + 1) + (n + 1) := by ring
  omega

/-- A value index determines its time point and its position in the time point. -/
theorem index_inj {a b c d n : Nat} (hc : c ≤ n) (hd : d ≤ n)
    (h : a * (n + 1) + c = b * (n + 1) + d) : a = b ∧ c = d := by
  rcases Nat.lt_trichotomy a b with hab | hab | hab
  · have := index_lt (n := n) hab hc
    omega
  · subst hab
    omega
  · have := index_lt (n := n) hab hd
    omega

theorem readLE_value (raw : List Byte) (v : Nat) (h4 : 4 ≤ raw.length) :
    readLE raw (4 + 8 * v) 8 =
      if v < SummitSource.wholeValues raw then some (SummitSource.valueBits raw v) else none := by
  unfold readLE SummitSource.wholeValues SummitSource.valueBits
  by_cases h : v < (raw.length - 4) / 8
  · rw [if_pos h, if_pos (by omega)]
  · rw [if_neg h, if_neg (by omega)]

namespace SummitSource

/-! ## `deserialize` -/

theorem reached_channelStep {F : Type} (ops : FloatOps F) (n : Nat) (raw : List Byte)
    (data0 : Nat → Nat → F) (pn0 : Nat → Int) (L : Int) (iPoint c : Nat)
    (st : Deserialized F) (h4 : 4 ≤ raw.length) (hc : c < n)
    (h : Reached ops n raw data0 pn0 L (iPoint * (n + 1) + c) st) :
    Reached ops n raw data0 pn0 L (iPoint * (n + 1) + c + 1)
      (channelStep ops raw iPoint c st) := by
  obtain ⟨hlen, hov, hcur, hdata, hpn⟩ := h
  unfold channelStep
  by_cases hK : wholeValues raw < iPoint * (n + 1) + c
  · have hov' : st.overrun = true := by rw [hov]; exact decide_eq_true hK
    rw [if_pos hov']
    have hmin : min (iPoint * (n + 1) + c + 1) (wholeValues raw)
        = min (iPoint * (n + 1) + c) (wholeValues raw) := by omega
    refine ⟨hlen, ?_, ?_, ?_, ?_⟩
    · rw [hov']; exact (decide_eq_true (by omega)).symm
    · rw [hmin]; exact hcur
    · rw [hmin]; exact hdata
    · rw [hmin]; exact hpn
  · have hov' : st.overrun = false := by rw [hov]; exact decide_eq_false hK
    have hcur' : st.doubleData = 4 + 8 * (iPoint * (n + 1) + c) := by
      rw [hcur]; congr 2; omega
    rw [hov', hcur', readLE_value raw _ h4]
    simp only [Bool.false_eq_true, if_false]
    by_cases hV : iPoint * (n + 1) + c < wholeValues raw
    · rw [if_pos hV]
      have hmin : min (iPoint * (n + 1) + c + 1) (wholeValues raw)
          = iPoint * (n + 1) + c + 1 := by omega
      have hmin0 : min (iPoint * (n + 1) + c) (wholeValues raw)
          = iPoint * (n + 1) + c := by omega
      rw [hmin0] at hdata hpn
      refine ⟨hlen, ?_, ?_, ?_, ?_⟩
      · show false = _
        exact (decide_eq_false (by omega)).symm
      · show 4 + 8 * (iPoint * (n + 1) + c) + 8 = _
        rw [hmin]; ring
      · intro c' i'
        show set2 st.data c iPoint _ c' i' = _
        rw [hmin]
        unfold set2
        by_cases heq : c' = c ∧ i' = iPoint
        · obtain ⟨rfl, rfl⟩ := heq
          rw [if_pos ⟨rfl, rfl⟩, if_pos ⟨hc, by omega⟩]
        · rw [if_neg heq, hdata]
          by_cases hc' : c' < n
          · have hne : i' * (n + 1) + c' ≠ iPoint * (n + 1) + c := by
              intro e
              have := index_inj (Nat.le_of_lt hc') (Nat.le_of_lt hc) e
              exact heq ⟨this.2, this.1⟩
            by_cases hlt : i' * (n + 1) + c' < iPoint * (n + 1) + c
            · rw [if_pos ⟨hc', hlt⟩, if_pos ⟨hc', by omega⟩]
            · rw [if_neg (fun h => hlt h.2), if_neg (fun h => hlt (by omega))]
          · rw [if_neg (fun h => hc' h.1), if_neg (fun h => hc' h.1)]
      · intro i'
        show st.packNums i' = _
        rw [hmin, hpn]
        have hne : i' * (n + 1) + n ≠ iPoint * (n + 1) + c := by
          intro e
          have := index_inj (Nat.le_refl n) (Nat.le_of_lt hc) e
          omega
        by_cases hlt : i' * (n + 1) + n < iPoint * (n + 1) + c
        · rw [if_pos hlt, if_pos (by omega)]
        · rw [if_neg hlt, if_neg (by omega)]
    · rw [if_neg hV]
      have hmin : min (iPoint * (n + 1) + c + 1) (wholeValues raw)
          = min (iPoint * (n + 1) + c) (wholeValues raw) := by omega
      refine ⟨hlen, ?_, ?_, ?_, ?_⟩
      · show true = _
        exact (decide_eq_true (by omega)).symm
      · show 4 + 8 * (iPoint * (n + 1) + c) = _
        omega
      · rw [hmin]; exact hdata
      · rw [hmin]; exact hpn


theorem reached_packetStep {F : Type} (ops : FloatOps F) (n : Nat) (raw : List Byte)
    (data0 : Nat → Nat → F) (pn0 : Nat → Int) (L : Int) (iPoint : Nat)
    (st : Deserialized F) (h4 : 4 ≤ raw.length)
    (h : Reached ops n raw data0 pn0 L (iPoint * (n + 1) + n) st) :
    Reached ops n raw data0 pn0 L (iPoint * (n + 1) + n + 1)
      (packetStep ops raw iPoint st) := by
  obtain ⟨hlen, hov, hcur, hdata, hpn⟩ := h
  unfold packetStep
  by_cases hK : wholeValues raw < iPoint * (n + 1) + n
  · have hov' : st.overrun = true := by rw [hov]; exact decide_eq_true hK
    rw [if_pos hov']
    have hmin : min (iPoint * (n + 1) + n + 1) (wholeValues raw)
        = min (iPoint * (n + 1) + n) (wholeValues raw) := by omega
    refine ⟨hlen, ?_, ?_, ?_, ?_⟩
    · rw [hov']; exact (decide_eq_true (by omega)).symm
    · rw [hmin]; exact hcur
    · rw [hmin]; exact hdata
    · rw [hmin]; exact hpn
  · have hov' : st.overrun = false := by rw [hov]; exact decide_eq_false hK
    have hcur' : st.doubleData = 4 + 8 * (iPoint * (n + 1) + n) := by
      rw [hcur]; congr 2; omega
    rw [hov', hcur', readLE_value raw _ h4]
    simp only [Bool.false_eq_true, if_false]
    by_cases hV : iPoint * (n + 1) + n < wholeValues raw
    · rw [if_pos hV]
      have hmin : min (iPoint * (n + 1) + n + 1) (wholeValues raw)
          = iPoint * (n + 1) + n + 1 := by omega
      have hmin0 : min (iPoint * (n + 1) + n) (wholeValues raw)
          = iPoint * (n + 1) + n := by omega
      rw [hmin0] at hdata hpn
      refine ⟨hlen, ?_, ?_, ?_, ?_⟩
      · show false = _
        exact (decide_eq_false (by omega)).symm
      · show 4 + 8 * (iPoint * (n + 1) + n) + 8 = _
        rw [hmin]; ring
      · intro c' i'
        show st.data c' i' = _
        rw [hmin, hdata]
        by_cases hc' : c' < n
        · have hne : i' * (n + 1) + c' ≠ iPoint * (n + 1) + n := by
            intro e
            have := index_inj (Nat.le_of_lt hc') (Nat.le_refl n) e
            omega
          by_cases hlt : i' * (n + 1) + c' < iPoint * (n + 1) + n
          · rw [if_pos ⟨hc', hlt⟩, if_pos ⟨hc', by omega⟩]
          · rw [if_neg (fun h => hlt h.2), if_neg (fun h => hlt (by omega))]
        · rw [if_neg (fun h => hc' h.1), if_neg (fun h => hc' h.1)]
      · intro i'
        show set1 st.packNums iPoint _ i' = _
        rw [hmin]
        unfold set1
        by_cases heq : i' = iPoint
        · subst heq
          rw [if_pos rfl, if_pos (by omega)]
        · rw [if_neg heq, hpn]
          have hne : i' * (n + 1) + n ≠ iPoint * (n + 1) + n := by
            intro e
            exact heq (index_inj (Nat.le_refl n) (Nat.le_refl n) e).1
          by_cases hlt : i' * (n + 1) + n < iPoint * (n + 1) + n
          · rw [if_pos hlt, if_pos (by omega)]
          · rw [if_neg hlt, if_neg (by omega)]
    · rw [if_neg hV]
      have hmin : min (iPoint * (n + 1) + n + 1) (wholeValues raw)
          = min (iPoint * (n + 1) + n) (wholeValues raw) := by omega
      refine ⟨hlen, ?_, ?_, ?_, ?_⟩
      · show true = _
        exact (decide_eq_true (by omega)).symm
      · show 4 + 8 * (iPoint * (n + 1) + n) = _
        omega
      · rw [hmin]; exact hdata
      · rw [hmin]; exact hpn

theorem reached_channelLoop {F : Type} (ops : FloatOps F) (n : Nat) (raw : List Byte)
    (data0 : Nat → Nat → F) (pn0 : Nat → Int) (L : Int) (iPoint : Nat)
    (st : Deserialized F) (h4 : 4 ≤ raw.length)
    (h : Reached ops n raw data0 pn0 L (iPoint * (n + 1)) st) (k : Nat) (hk : k ≤ n) :
    Reached ops n raw data0 pn0 L (iPoint * (n + 1) + k)
      (forLoop k (channelStep ops raw iPoint) st) := by
  induction k with
  | zero => rw [forLoop_zero]; exact h
  | succ k ih =>
    rw [forLoop_succ]
    exact reached_channelStep ops n raw data0 pn0 L iPoint k _ h4 (by omega) (ih (by omega))

theorem reached_pointStep {F : Type} (ops : FloatOps F) (n : Nat) (raw : List Byte)
    (data0 : Nat → Nat → F) (pn0 : Nat → Int) (L : Int) (iPoint : Nat)
    (st : Deserialized F) (h4 : 4 ≤ raw.length)
    (h : Reached ops n raw data0 pn0 L (iPoint * (n + 1)) st) :
    Reached ops n raw data0 pn0 L ((iPoint + 1) * (n + 1)) (pointStep ops raw n iPoint st) := by
  have e : (iPoint + 1) * (n + 1) = iPoint * (n + 1) + n + 1 := by ring
  rw [e]
  exact reached_packetStep ops n raw data0 pn0 L iPoint _ h4
    (reached_channelLoop ops n raw data0 pn0 L iPoint st h4 h n (Nat.le_refl n))

theorem reached_pointLoop {F : Type} (ops : FloatOps F) (n : Nat) (raw : List Byte)
    (data0 : Nat → Nat → F) (pn0 : Nat → Int) (L : Int)
    (st : Deserialized F) (h4 : 4 ≤ raw.length)
    (h : Reached ops n raw data0 pn0 L 0 st) (k : Nat) :
    Reached ops n raw data0 pn0 L (k * (n + 1)) (forLoop k (pointStep ops raw n) st) := by
  induction k with
  | zero => rw [forLoop_zero, Nat.zero_mul]; exact h
  | succ k ih =>
    rw [forLoop_succ]
    exact reached_pointStep ops n raw data0 pn0 L k _ h4 ih

theorem readLE_some_length {raw : List Byte} {off n u : Nat} (h : readLE raw off n = some u) :
    off + n ≤ raw.length := by
  unfold readLE at h
  by_cases hle : off + n ≤ raw.length
  · exact hle
  · rw [if_neg hle] at h; exact absurd h (by simp)

/-- The state `deserialize` returns, for every reply that holds the length prefix. -/
theorem deserialize_reached {F : Type} (ops : FloatOps F) (n : Nat) (raw : List Byte)
    (data0 : Nat → Nat → F) (pn0 : Nat → Int) (u : Nat) (hu : readLE raw 0 4 = some u) :
    Reached ops n raw data0 pn0 (toInt32 u) ((toInt32 u).toNat * (n + 1))
      (deserialize ops n raw data0 pn0) := by
  have h4 : 4 ≤ raw.length := by simpa using readLE_some_length hu
  have hinit : ∀ b : Bool, Reached ops n raw data0 pn0 (toInt32 u) 0
      { length := toInt32 u, doubleData := 4, data := data0, packNums := pn0,
        overrun := false, threw := b } := by
    intro b
    refine ⟨rfl, ?_, ?_, ?_, ?_⟩
    · show false = _
      exact (decide_eq_false (by omega)).symm
    · show 4 = _
      simp
    · intro c i
      rw [if_neg (fun h => by have := h.2; omega)]
    · intro i
      rw [if_neg (by omega)]
  unfold deserialize
  rw [hu]
  dsimp only
  split
  · rename_i hneg
    have h0 : (toInt32 u).toNat = 0 := by omega
    rw [h0, Nat.zero_mul]
    exact hinit true
  · exact reached_pointLoop ops n raw data0 pn0 (toInt32 u) _ h4 (hinit false) _

theorem channelStep_threw {F : Type} (ops : FloatOps F) (raw : List Byte) (iPoint c : Nat)
    (st : Deserialized F) : (channelStep ops raw iPoint c st).threw = st.threw := by
  unfold channelStep
  split
  · rfl
  · split <;> rfl

theorem packetStep_threw {F : Type} (ops : FloatOps F) (raw : List Byte) (iPoint : Nat)
    (st : Deserialized F) : (packetStep ops raw iPoint st).threw = st.threw := by
  unfold packetStep
  split
  · rfl
  · split <;> rfl

theorem pointLoop_threw {F : Type} (ops : FloatOps F) (raw : List Byte) (n : Nat)
    (st : Deserialized F) (k : Nat) :
    (forLoop k (pointStep ops raw n) st).threw = st.threw := by
  induction k with
  | zero => rw [forLoop_zero]
  | succ k ih =>
    rw [forLoop_succ]
    unfold pointStep
    rw [packetStep_threw]
    have inner : ∀ m : Nat,
        (forLoop m (channelStep ops raw k) (forLoop k (pointStep ops raw n) st)).threw
          = st.threw := by
      intro m
      induction m with
      | zero => rw [forLoop_zero]; exact ih
      | succ m ihm => rw [forLoop_succ, channelStep_threw]; exact ihm
    exact inner n

/-- The allocation throws exactly for a negative length with at least one channel. -/
theorem deserialize_threw {F : Type} (ops : FloatOps F) (n : Nat) (raw : List Byte)
    (data0 : Nat → Nat → F) (pn0 : Nat → Int) (u : Nat) (hu : readLE raw 0 4 = some u) :
    (deserialize ops n raw data0 pn0).threw = decide (0 < n ∧ toInt32 u < 0) := by
  unfold deserialize
  rw [hu]
  dsimp only
  split
  · rename_i h
    exact (decide_eq_true h).symm
  · rename_i h
    rw [pointLoop_threw]
    exact (decide_eq_false h).symm


theorem wholeValues_ge {raw : List Byte} {V : Nat} (h : 4 + V * 8 ≤ raw.length) :
    V ≤ wholeValues raw := by
  unfold wholeValues; omega

theorem wholeValues_gt {raw : List Byte} {v : Nat} (h : 4 + 8 * v + 8 ≤ raw.length) :
    v < wholeValues raw := by
  unfold wholeValues; omega

/-- The declared number of time points as a loop bound. -/
theorem toNat_cases (L : Int) : (L < 0 ∧ L.toNat = 0) ∨ (0 ≤ L ∧ (L.toNat : Int) = L) := by
  rcases lt_or_le L 0 with h | h
  · exact Or.inl ⟨h, by omega⟩
  · exact Or.inr ⟨h, by omega⟩

/-- C1 fails on the code: the reply `ff ff ff ff` declares `L = -1`, so it holds at
    least `4 + L*(n+1)*8 = -12` bytes for `n = 1`, and `deserialize` does not return:
    `new double[length]` of line 382 throws. -/
theorem negative_length_throws :
    readLE replyNegative 0 4 = some 4294967295 ∧
    toInt32 4294967295 = -1 ∧
    4 + toInt32 4294967295 * (((1 : Nat) : Int) + 1) * 8 ≤ (replyNegative.length : Int) ∧
    (deserialize ieeeOps 1 replyNegative (constArray2 none) (constArray1 0)).threw = true := by
  decide

/-- C1 as amended. For every reply that holds at least `4 + L*(n+1)*8` bytes, `L ≥ 0`
    being the little-endian signed integer in its first 4 bytes and `n` the device
    channel count, `deserialize` returns (it neither throws nor reads beyond the
    reply) with `length = L`, and for every time point `i < L` it has stored in
    `data[c][i]`, for every channel `c < n`, the float-narrowed 8-byte value at byte
    offset `4 + 8*(i*(n+1) + c)`, and in `packNums[i]` the integer truncation of the
    8-byte value at byte offset `4 + 8*(i*(n+1) + n)`. -/
theorem deserialize_layout {F : Type} (ops : FloatOps F) (n : Nat) (raw : List Byte)
    (data0 : Nat → Nat → F) (pn0 : Nat → Int) (u : Nat)
    (hL : readLE raw 0 4 = some u)
    (hpos : 0 ≤ toInt32 u)
    (hlen : 4 + toInt32 u * ((n : Int) + 1) * 8 ≤ (raw.length : Int)) :
    (deserialize ops n raw data0 pn0).threw = false ∧
    (deserialize ops n raw data0 pn0).overrun = false ∧
    (deserialize ops n raw data0 pn0).length = toInt32 u ∧
    ∀ i : Nat, (i : Int) < toInt32 u →
      (∀ c : Nat, c < n →
        ∃ bits, readLE raw (4 + 8 * (i * (n + 1) + c)) 8 = some bits ∧
          (deserialize ops n raw data0 pn0).data c i = ops.ofDouble bits) ∧
      (∃ bits, readLE raw (4 + 8 * (i * (n + 1) + n)) 8 = some bits ∧
          (deserialize ops n raw data0 pn0).packNums i = ops.doubleToInt bits) := by
  have h4 : 4 ≤ raw.length := by simpa using readLE_some_length hL
  obtain ⟨hlength, hov, -, hdata, hpn⟩ := deserialize_reached ops n raw data0 pn0 u hL
  have hK : (toInt32 u).toNat * (n + 1) ≤ wholeValues raw := by
    rcases toNat_cases (toInt32 u) with ⟨-, h0⟩ | ⟨-, h0⟩
    · rw [h0]; omega
    · apply wholeValues_ge
      rw [← h0] at hlen
      have : ((4 + (toInt32 u).toNat * (n + 1) * 8 : Nat) : Int) ≤ (raw.length : Int) := by
        push_cast; linarith
      exact_mod_cast this
  have hmin : min ((toInt32 u).toNat * (n + 1)) (wholeValues raw)
      = (toInt32 u).toNat * (n + 1) := by omega
  rw [hmin] at hdata hpn
  refine ⟨?_, ?_, hlength, ?_⟩
  · rw [deserialize_threw ops n raw data0 pn0 u hL]
    exact decide_eq_false (fun h => by have := h.2; omega)
  · rw [hov]; exact decide_eq_false (by omega)
  · intro i hi
    have hi' : i < (toInt32 u).toNat := by omega
    constructor
    · intro c hc
      have hidx := index_lt (n := n) hi' (Nat.le_of_lt hc)
      refine ⟨valueBits raw (i * (n + 1) + c), ?_, ?_⟩
      · rw [readLE_value raw _ h4, if_pos (by omega)]
      · rw [hdata, if_pos ⟨hc, hidx⟩]
    · have hidx := index_lt (n := n) hi' (Nat.le_refl n)
      refine ⟨valueBits raw (i * (n + 1) + n), ?_, ?_⟩
      · rw [readLE_value raw _ h4, if_pos (by omega)]
      · rw [hpn, if_pos hidx]

/-- C1 as amended, at a complete reply of two time points for one channel. -/
theorem deserialize_layout_witness :
    (deserialize ieeeOps 1 replyTwoPoints (constArray2 none) (constArray1 0)).threw = false ∧
    (deserialize ieeeOps 1 replyTwoPoints (constArray2 none) (constArray1 0)).overrun = false ∧
    (deserialize ieeeOps 1 replyTwoPoints (constArray2 none) (constArray1 0)).length
      = toInt32 2 ∧
    ∀ i : Nat, (i : Int) < toInt32 2 →
      (∀ c : Nat, c < 1 →
        ∃ bits, readLE replyTwoPoints (4 + 8 * (i * (1 + 1) + c)) 8 = some bits ∧
          (deserialize ieeeOps 1 replyTwoPoints (constArray2 none) (constArray1 0)).data c i
            = ieeeOps.ofDouble bits) ∧
      (∃ bits, readLE replyTwoPoints (4 + 8 * (i * (1 + 1) + 1)) 8 = some bits ∧
          (deserialize ieeeOps 1 replyTwoPoints (constArray2 none) (constArray1 0)).packNums i
            = ieeeOps.doubleToInt bits) :=
  deserialize_layout ieeeOps 1 replyTwoPoints (constArray2 none) (constArray1 0) 2
    (by decide) (by decide) (by decide)

/-- C2 fails on the code: the reply `replyCutShort` declares two time points for one
    channel and is 16 bytes short, yet `deserialize` stores the sample and the packet
    number of its first time point. -/
theorem short_reply_is_written :
    declaredLength replyCutShort = some 2 ∧
    (replyCutShort.length : Int) < 4 + 2 * ((1 : Int) + 1) * 8 ∧
    (deserialize ieeeOps 1 replyCutShort (constArray2 none) (constArray1 0)).data 0 0
      ≠ (constArray2 none : Nat → Nat → Option ℚ) 0 0 ∧
    (deserialize ieeeOps 1 replyCutShort (constArray2 none) (constArray1 0)).packNums 0
      ≠ (constArray1 0 : Nat → Int) 0 := by
  decide!

/-- C2 as amended. `deserialize` has no length check and no error result: on a reply
    shorter than `4 + L*(n+1)*8` bytes it still sets `length` to the declared `L`,
    stores every sample and every packet number whose 8 bytes lie inside the reply,
    and then reads beyond the end of the reply. -/
theorem deserialize_unchecked {F : Type} (ops : FloatOps F) (n : Nat) (raw : List Byte)
    (data0 : Nat → Nat → F) (pn0 : Nat → Int) (u : Nat)
    (hL : readLE raw 0 4 = some u)
    (hshort : (raw.length : Int) < 4 + toInt32 u * ((n : Int) + 1) * 8) :
    (deserialize ops n raw data0 pn0).overrun = true ∧
    (deserialize ops n raw data0 pn0).length = toInt32 u ∧
    (∀ i c : Nat, (i : Int) < toInt32 u → c < n →
      4 + 8 * (i * (n + 1) + c) + 8 ≤ raw.length →
        ∃ bits, readLE raw (4 + 8 * (i * (n + 1) + c)) 8 = some bits ∧
          (deserialize ops n raw data0 pn0).data c i = ops.ofDouble bits) ∧
    (∀ i : Nat, (i : Int) < toInt32 u →
      4 + 8 * (i * (n + 1) + n) + 8 ≤ raw.length →
        ∃ bits, readLE raw (4 + 8 * (i * (n + 1) + n)) 8 = some bits ∧
          (deserialize ops n raw data0 pn0).packNums i = ops.doubleToInt bits) := by
  have h4 : 4 ≤ raw.length := by simpa using readLE_some_length hL
  obtain ⟨hlength, hov, -, hdata, hpn⟩ := deserialize_reached ops n raw data0 pn0 u hL
  have hK : wholeValues raw < (toInt32 u).toNat * (n + 1) := by
    rcases toNat_cases (toInt32 u) with ⟨hneg, -⟩ | ⟨-, h0⟩
    · exfalso
      have : toInt32 u * ((n : Int) + 1) * 8 ≤ 0 := by
        have hn : (0 : Int) ≤ ((n : Int) + 1) * 8 := by positivity
        have := mul_nonpos_of_nonpos_of_nonneg (le_of_lt hneg) hn
        linarith [mul_assoc (toInt32 u) ((n : Int) + 1) 8]
      omega
    · rw [← h0] at hshort
      have : ((raw.length : Nat) : Int) < ((4 + (toInt32 u).toNat * (n + 1) * 8 : Nat) : Int) := by
        push_cast; linarith
      have h' : raw.length < 4 + (toInt32 u).toNat * (n + 1) * 8 := by exact_mod_cast this
      unfold wholeValues; omega
  have hmin : min ((toInt32 u).toNat * (n + 1)) (wholeValues raw) = wholeValues raw := by omega
  rw [hmin] at hdata hpn
  refine ⟨?_, hlength, ?_, ?_⟩
  · rw [hov]; exact decide_eq_true hK
  · intro i c _ hc hin
    refine ⟨valueBits raw (i * (n + 1) + c), ?_, ?_⟩
    · rw [readLE_value raw _ h4, if_pos (wholeValues_gt hin)]
    · rw [hdata, if_pos ⟨hc, wholeValues_gt hin⟩]
  · intro i _ hin
    refine ⟨valueBits raw (i * (n + 1) + n), ?_, ?_⟩
    · rw [readLE_value raw _ h4, if_pos (wholeValues_gt hin)]
    · rw [hpn, if_pos (wholeValues_gt hin)]

/-- C2 as amended, at the cut reply. -/
theorem deserialize_unchecked_witness :
    (deserialize ieeeOps 1 replyCutShort (constArray2 none) (constArray1 0)).overrun = true ∧
    (deserialize ieeeOps 1 replyCutShort (constArray2 none) (constArray1 0)).length
      = toInt32 2 ∧
    (∀ i c : Nat, (i : Int) < toInt32 2 → c < 1 →
      4 + 8 * (i * (1 + 1) + c) + 8 ≤ replyCutShort.length →
        ∃ bits, readLE replyCutShort (4 + 8 * (i * (1 + 1) + c)) 8 = some bits ∧
          (deserialize ieeeOps 1 replyCutShort (constArray2 none) (constArray1 0)).data c i
            = ieeeOps.ofDouble bits) ∧
    (∀ i : Nat, (i : Int) < toInt32 2 →
      4 + 8 * (i * (1 + 1) + 1) + 8 ≤ replyCutShort.length →
        ∃ bits, readLE replyCutShort (4 + 8 * (i * (1 + 1) + 1)) 8 = some bits ∧
          (deserialize ieeeOps 1 replyCutShort (constArray2 none) (constArray1 0)).packNums i
            = ieeeOps.doubleToInt bits) :=
  deserialize_unchecked ieeeOps 1 replyCutShort (constArray2 none) (constArray1 0) 2
    (by decide) (by decide)


/-! ## The channel loop of `process` -/

theorem set2_apply {α : Type} (a : Nat → Nat → α) (r c : Nat) (v : α) (r' c' : Nat) :
    set2 a r c v r' c' = if r' = r ∧ c' = c then v else a r' c' := rfl

theorem writeSamples_apply {F : Type} (packetLength : Int) (iChan : Nat) (v : Nat → F)
    (buffer : Nat → Nat → F) (c i : Nat) :
    writeSamples packetLength iChan v buffer c i =
      if c = iChan ∧ (i : Int) < packetLength then v i else buffer c i := by
  unfold writeSamples
  have key : ∀ k : Nat, forLoop k (fun iSample b => set2 b iChan iSample (v iSample)) buffer c i
      = if c = iChan ∧ i < k then v i else buffer c i := by
    intro k
    induction k with
    | zero => rw [forLoop_zero, if_neg (by omega)]
    | succ k ih =>
      rw [forLoop_succ]
      show set2 _ iChan k (v k) c i = _
      rw [set2_apply]
      by_cases h : c = iChan ∧ i = k
      · obtain ⟨rfl, rfl⟩ := h
        rw [if_pos ⟨rfl, rfl⟩, if_pos ⟨rfl, by omega⟩]
      · rw [if_neg h, ih]
        by_cases h2 : c = iChan ∧ i < k
        · rw [if_pos h2, if_pos ⟨h2.1, by omega⟩]
        · rw [if_neg h2, if_neg (fun h3 => by
            rcases h3 with ⟨h3, h4⟩
            by_cases h5 : i = k
            · exact h ⟨h3, h5⟩
            · exact h2 ⟨h3, by omega⟩)]
  rw [key]
  by_cases h : c = iChan ∧ (i : Int) < packetLength
  · rw [if_pos h, if_pos ⟨h.1, by omega⟩]
  · rw [if_neg h, if_neg (fun h2 => h ⟨h2.1, by omega⟩)]

/-- After an out-of-bounds read an iteration of the channel loop does nothing. -/
theorem channelCase_faulted {F : Type} (ops : FloatOps F) (s : SourceState F) (L : Int)
    (t : ChannelType) (iChan : Nat) (st : FillState F) (h : st.fault = true) :
    channelCase ops s L t iChan st = st := by
  unfold channelCase
  rw [if_pos h]

theorem channelCase_headstage {F : Type} (ops : FloatOps F) (s : SourceState F) (L : Int)
    (iChan : Nat) (st : FillState F) (h : st.fault = false) :
    channelCase ops s L ChannelType.HEADSTAGE_CHANNEL iChan st
      = headstageCase ops s L iChan st := by
  unfold channelCase
  rw [if_neg (by rw [h]; exact Bool.false_ne_true)]

theorem channelCase_aux {F : Type} (ops : FloatOps F) (s : SourceState F) (L : Int)
    (iChan : Nat) (st : FillState F) (h : st.fault = false) :
    channelCase ops s L ChannelType.AUX_CHANNEL iChan st = auxCase ops s L iChan st := by
  unfold channelCase
  rw [if_neg (by rw [h]; exact Bool.false_ne_true)]

theorem channelCase_adc {F : Type} (ops : FloatOps F) (s : SourceState F) (L : Int)
    (iChan : Nat) (st : FillState F) :
    channelCase ops s L ChannelType.ADC_CHANNEL iChan st = st := by
  unfold channelCase
  split <;> rfl

theorem channelLoop_faulted {F : Type} (ops : FloatOps F) (s : SourceState F) (L : Int)
    (channels : List ChannelType) (iChan : Nat) (st : FillState F) (h : st.fault = true) :
    channelLoop ops s L channels iChan st = st := by
  induction channels generalizing iChan with
  | nil => rfl
  | cons t rest ih =>
    show channelLoop ops s L rest (iChan + 1) (channelCase ops s L t iChan st) = st
    rw [channelCase_faulted ops s L t iChan st h]
    exact ih (iChan + 1)

theorem headstageCase_other {F : Type} (ops : FloatOps F) (s : SourceState F) (L : Int)
    (iChan : Nat) (st : FillState F) (q i : Nat) (hq : q ≠ iChan) :
    (headstageCase ops s L iChan st).buffer q i = st.buffer q i := by
  unfold headstageCase
  split_ifs <;> first
    | rfl
    | (show writeSamples _ _ _ _ q i = _
       rw [writeSamples_apply, if_neg (fun h => hq h.1)])

theorem auxCase_other {F : Type} (ops : FloatOps F) (s : SourceState F) (L : Int)
    (iChan : Nat) (st : FillState F) (q i : Nat) (hq : q ≠ iChan) :
    (auxCase ops s L iChan st).buffer q i = st.buffer q i := by
  unfold auxCase
  dsimp only
  split_ifs <;> first
    | rfl
    | (show writeSamples _ _ _ _ q i = _
       rw [writeSamples_apply, if_neg (fun h => hq h.1)])

/-- One iteration of the channel loop writes to no output channel but its own. -/
theorem channelCase_other {F : Type} (ops : FloatOps F) (s : SourceState F) (L : Int)
    (t : ChannelType) (iChan : Nat) (st : FillState F) (q i : Nat) (hq : q ≠ iChan) :
    (channelCase ops s L t iChan st).buffer q i = st.buffer q i := by
  by_cases hf : st.fault = true
  · rw [channelCase_faulted ops s L t iChan st hf]
  · have hf' : st.fault = false := by simpa using hf
    cases t with
    | HEADSTAGE_CHANNEL =>
      rw [channelCase_headstage ops s L iChan st hf']
      exact headstageCase_other ops s L iChan st q i hq
    | AUX_CHANNEL =>
      rw [channelCase_aux ops s L iChan st hf']
      exact auxCase_other ops s L iChan st q i hq
    | ADC_CHANNEL => rw [channelCase_adc]

/-- The channel loop started at output channel `iChan` leaves the channels before it
    as they are. -/
theorem channelLoop_before {F : Type} (ops : FloatOps F) (s : SourceState F) (L : Int)
    (channels : List ChannelType) (iChan : Nat) (st : FillState F) (q i : Nat)
    (hq : q < iChan) :
    (channelLoop ops s L channels iChan st).buffer q i = st.buffer q i := by
  induction channels generalizing iChan st with
  | nil => rfl
  | cons t rest ih =>
    show (channelLoop ops s L rest (iChan + 1) (channelCase ops s L t iChan st)).buffer q i = _
    rw [ih (iChan + 1) _ (by omega), channelCase_other ops s L t iChan st q i (by omega)]

/-- A channel loop that ends without an out-of-bounds read started without one, and
    its first iteration made none. -/
theorem channelLoop_no_fault {F : Type} (ops : FloatOps F) (s : SourceState F) (L : Int)
    (t : ChannelType) (rest : List ChannelType) (iChan : Nat) (st : FillState F)
    (h : (channelLoop ops s L (t :: rest) iChan st).fault = false) :
    st.fault = false ∧ (channelCase ops s L t iChan st).fault = false ∧
      (channelLoop ops s L rest (iChan + 1) (channelCase ops s L t iChan st)).fault = false := by
  have h' : (channelLoop ops s L rest (iChan + 1) (channelCase ops s L t iChan st)).fault
      = false := h
  have h2 : (channelCase ops s L t iChan st).fault = false := by
    by_contra hc
    have hc' : (channelCase ops s L t iChan st).fault = true := by simpa using hc
    rw [channelLoop_faulted ops s L rest (iChan + 1) _ hc', hc'] at h'
    exact Bool.noConfusion h'
  have h1 : st.fault = false := by
    by_contra hc
    have hc' : st.fault = true := by simpa using hc
    rw [channelCase_faulted ops s L t iChan st hc', hc'] at h2
    exact Bool.noConfusion h2
  exact ⟨h1, h2, h'⟩

/-- The `AUX_CHANNEL` case while history is still being added, with at least one
    device channel. -/
theorem auxCase_history {F : Type} (ops : FloatOps F) (s : SourceState F) (L : Int)
    (iChan : Nat) (st : FillState F) (hn : 0 < s.nChans) (h0 : st.iChanHist = 0)
    (h1 : (st.iHist : Int) ≤ L - 1) (h2 : (st.iHist : Int) ≤ s.m_featuresHistory) :
    auxCase ops s L iChan st =
      { st with
        buffer := writeSamples L iChan
          (fun _ => ops.mul (s.INSData 0 (L - 1 - (st.iHist : Int)).toNat) (ops.ofInt 1000))
          st.buffer,
        iHist := st.iHist + 1 } := by
  have h3 : ¬ ((st.iHist : Int) > s.m_featuresHistory) := by omega
  have h4 : ¬ (st.iChanHist > 0) := by omega
  have h5 : ¬ (s.nChans ≤ st.iChanHist) := by omega
  unfold auxCase
  rw [if_neg (by omega)]
  dsimp only
  rw [if_neg h3, if_neg h4, if_neg h5, h0]

/-- The `AUX_CHANNEL` case while history is still being added, with no device channel:
    the read of row 0 is out of bounds. -/
theorem auxCase_history_fault {F : Type} (ops : FloatOps F) (s : SourceState F) (L : Int)
    (iChan : Nat) (st : FillState F) (hn : s.nChans = 0) (h0 : st.iChanHist = 0)
    (h1 : (st.iHist : Int) ≤ L - 1) (h2 : (st.iHist : Int) ≤ s.m_featuresHistory) :
    auxCase ops s L iChan st = { st with fault := true } := by
  have h3 : ¬ ((st.iHist : Int) > s.m_featuresHistory) := by omega
  have h4 : ¬ (st.iChanHist > 0) := by omega
  have h5 : s.nChans ≤ st.iChanHist := by omega
  unfold auxCase
  rw [if_neg (by omega)]
  dsimp only
  rw [if_neg h3, if_neg h4, if_pos h5]

theorem headstageCase_cursors {F : Type} (ops : FloatOps F) (s : SourceState F) (L : Int)
    (iChan : Nat) (st : FillState F) :
    (headstageCase ops s L iChan st).iHist = st.iHist ∧
    (headstageCase ops s L iChan st).iChanHist = st.iChanHist := by
  unfold headstageCase
  split_ifs <;> exact ⟨rfl, rfl⟩

/-- In a channel loop that ends without an out-of-bounds read, the auxiliary channel
    at position `p` of the remaining layout, `j` auxiliary channels after the current
    one, carries the sample `iHist + j` back from the newest. -/
theorem channelLoop_aux {F : Type} (ops : FloatOps F) (s : SourceState F) (L : Int)
    (channels : List ChannelType) (iChan : Nat) (st : FillState F)
    (hfin : (channelLoop ops s L channels iChan st).fault = false)
    (p j : Nat) (h0 : st.iChanHist = 0)
    (hp : channels[p]? = some ChannelType.AUX_CHANNEL)
    (hj : (channels.take p).count ChannelType.AUX_CHANNEL = j)
    (hlt : ((st.iHist + j : Nat) : Int) < min L (s.m_featuresHistory + 1))
    (i : Nat) (hi : (i : Int) < L) :
    (channelLoop ops s L channels iChan st).buffer (iChan + p) i =
      ops.mul (s.INSData 0 (L - 1 - ((st.iHist + j : Nat) : Int)).toNat) (ops.ofInt 1000) := by
  induction channels generalizing iChan st p j with
  | nil => simp at hp
  | cons t rest ih =>
    obtain ⟨hsf, hcf, hrest⟩ := channelLoop_no_fault ops s L t rest iChan st hfin
    show (channelLoop ops s L rest (iChan + 1) (channelCase ops s L t iChan st)).buffer
      (iChan + p) i = _
    have hauxstep : t = ChannelType.AUX_CHANNEL → (st.iHist : Int) ≤ L - 1 →
        (st.iHist : Int) ≤ s.m_featuresHistory →
        channelCase ops s L t iChan st =
          { st with
            buffer := writeSamples L iChan
              (fun _ => ops.mul (s.INSData 0 (L - 1 - (st.iHist : Int)).toNat)
                (ops.ofInt 1000))
              st.buffer,
            iHist := st.iHist + 1 } := by
      intro ht h1 h2
      subst ht
      rw [channelCase_aux ops s L iChan st hsf] at hcf ⊢
      by_cases hn : 0 < s.nChans
      · exact auxCase_history ops s L iChan st hn h0 h1 h2
      · rw [auxCase_history_fault ops s L iChan st (by omega) h0 h1 h2] at hcf
        exact Bool.noConfusion hcf
    cases p with
    | zero =>
      simp only [List.getElem?_cons_zero, Option.some.injEq] at hp
      simp only [List.take_zero, List.count_nil] at hj
      subst hj
      rw [channelLoop_before ops s L rest (iChan + 1) _ (iChan + 0) i (by omega),
        hauxstep hp (by omega) (by omega)]
      show writeSamples _ _ _ _ (iChan + 0) i = _
      rw [writeSamples_apply, if_pos ⟨by omega, hi⟩]
      simp
    | succ p =>
      simp only [List.getElem?_cons_succ] at hp
      rw [List.take_succ_cons, List.count_cons] at hj
      have hidx : iChan + (p + 1) = (iChan + 1) + p := by omega
      rw [hidx]
      cases t with
      | HEADSTAGE_CHANNEL =>
        simp only [beq_iff_eq, reduceCtorEq, if_false, Nat.add_zero] at hj
        rw [channelCase_headstage ops s L iChan st hsf] at hrest ⊢
        have hc := headstageCase_cursors ops s L iChan st
        have := ih (iChan + 1) (headstageCase ops s L iChan st) hrest p j
          (by rw [hc.2]; exact h0) hp hj (by rw [hc.1]; exact hlt)
        rw [hc.1] at this
        exact this
      | AUX_CHANNEL =>
        simp only [beq_self_eq_true, if_true] at hj
        have hstep := hauxstep rfl (by omega) (by omega)
        obtain ⟨st', hst', hI, hC⟩ : ∃ st',
            channelCase ops s L ChannelType.AUX_CHANNEL iChan st = st' ∧
            st'.iHist = st.iHist + 1 ∧ st'.iChanHist = 0 := ⟨_, hstep, rfl, h0⟩
        rw [hst'] at hrest ⊢
        have e : st'.iHist + List.count ChannelType.AUX_CHANNEL (List.take p rest)
            = st.iHist + j := by omega
        have := ih (iChan + 1) st' hrest p
          (List.count ChannelType.AUX_CHANNEL (List.take p rest)) hC hp rfl
          (by rw [e]; exact hlt)
        rw [this, e]
      | ADC_CHANNEL =>
        simp only [beq_iff_eq, reduceCtorEq, if_false, Nat.add_zero] at hj
        rw [channelCase_adc] at hrest ⊢
        exact ih (iChan + 1) st hrest p j h0 hp hj hlt

/-! ## `process`: auxiliary and headstage fan-out -/

/-- A cycle completes when `deserialize` neither reads beyond the reply nor throws
    and the channel loop reads no row beyond `INSData`. -/
theorem process_completes {F : Type} (ops : FloatOps F) (channels : List ChannelType)
    (s : SourceState F) (buffer : Nat → Nat → F) (reply : List Byte)
    (hdec : (decoded ops s reply).overrun = false)
    (hthrow : (decoded ops s reply).threw = false)
    (hfill : (filled ops channels s buffer (decoded ops s reply)).fault = false) :
    process ops channels s buffer reply =
      some (processDecoded ops channels s buffer (decoded ops s reply)) := by
  unfold process
  rw [hdec, hthrow, hfill]
  rfl

/-- A cycle that has a result ran to its end, and the result is that of
    `processDecoded`. -/
theorem process_eq_some {F : Type} {ops : FloatOps F} {channels : List ChannelType}
    {s : SourceState F} {buffer : Nat → Nat → F} {reply : List Byte}
    {r : SourceState F × (Nat → Nat → F) × Int}
    (h : process ops channels s buffer reply = some r) :
    (decoded ops s reply).overrun = false ∧ (decoded ops s reply).threw = false ∧
    (filled ops channels s buffer (decoded ops s reply)).fault = false ∧
    r = processDecoded ops channels s buffer (decoded ops s reply) := by
  unfold process at h
  split at h
  · exact absurd h (by simp)
  · split at h
    · exact absurd h (by simp)
    · split at h
      · exact absurd h (by simp)
      · rename_i h1 h2 h3
        simp only [Option.some.injEq] at h
        exact ⟨by simpa using h1, by simpa using h2, by simpa using h3, h.symm⟩

/-- In every cycle that completes on a decoded packet with `L ≥ 1` time points, the
    `j`-th auxiliary output channel in declaration order (at position `p` of the
    layout), for `j < min(L, featuresHistory + 1)`, has each of its samples `0 .. L-1`
    set to `SampleMatrix[0][L-1-j] * 1000`: device channel 0, `j` samples back from
    the newest, with no mean subtracted. -/
theorem aux_lookback {F : Type} (ops : FloatOps F) (channels : List ChannelType)
    (s : SourceState F) (buffer : Nat → Nat → F) (reply : List Byte)
    (hdec : (decoded ops s reply).overrun = false)
    (hthrow : (decoded ops s reply).threw = false)
    (hfill : (filled ops channels s buffer (decoded ops s reply)).fault = false)
    (_hL : 1 ≤ (decoded ops s reply).length) (p j : Nat)
    (hp : channels[p]? = some ChannelType.AUX_CHANNEL)
    (hj : (channels.take p).count ChannelType.AUX_CHANNEL = j)
    (hlt : (j : Int) < min (decoded ops s reply).length (s.m_featuresHistory + 1)) :
    ∃ s' buffer',
      process ops channels s buffer reply = some (s', buffer', (decoded ops s reply).length) ∧
      s'.INSData = (decoded ops s reply).data ∧
      ∀ i : Nat, (i : Int) < (decoded ops s reply).length →
        buffer' p i =
          ops.mul
            ((decoded ops s reply).data 0 ((decoded ops s reply).length - 1 - (j : Int)).toNat)
            (ops.ofInt 1000) := by
  refine ⟨_, _, process_completes ops channels s buffer reply hdec hthrow hfill, rfl, ?_⟩
  intro i hi
  have := channelLoop_aux ops (counted ops s (decoded ops s reply))
    (decoded ops s reply).length channels 0
    { buffer := buffer, iHeadstage := 0, iChanHist := 0, iHist := 0, fault := false }
    hfill p j rfl hp hj
    (by
      show (((0 : Nat) + j : Nat) : Int) < min (decoded ops s reply).length
        (s.m_featuresHistory + 1)
      rw [Nat.zero_add]; exact hlt)
    i hi
  simp only [Nat.zero_add] at this
  exact this

/-- The auxiliary lookback on the layout headstage, auxiliary, auxiliary with the
    two-point packet: the auxiliary channel at position 2 is the second one (`j = 1`). -/
theorem aux_lookback_example :
    ∃ s' buffer',
      process ieeeOps
          [ChannelType.HEADSTAGE_CHANNEL, ChannelType.AUX_CHANNEL, ChannelType.AUX_CHANNEL]
          (SourceState.fresh 1 blankState) (constArray2 none) replyTwoPoints
        = some (s', buffer',
            (decoded ieeeOps (SourceState.fresh 1 blankState) replyTwoPoints).length) ∧
      s'.INSData = (decoded ieeeOps (SourceState.fresh 1 blankState) replyTwoPoints).data ∧
      ∀ i : Nat,
        (i : Int) < (decoded ieeeOps (SourceState.fresh 1 blankState) replyTwoPoints).length →
        buffer' 2 i =
          ieeeOps.mul
            ((decoded ieeeOps (SourceState.fresh 1 blankState) replyTwoPoints).data 0
              ((decoded ieeeOps (SourceState.fresh 1 blankState) replyTwoPoints).length
                - 1 - ((1 : Nat) : Int)).toNat)
            (ieeeOps.ofInt 1000) :=
  aux_lookback ieeeOps
    [ChannelType.HEADSTAGE_CHANNEL, ChannelType.AUX_CHANNEL, ChannelType.AUX_CHANNEL]
    (SourceState.fresh 1 blankState) (constArray2 none) replyTwoPoints
    (by decide) (by decide) (by decide) (by decide) 2 1 (by decide) (by decide) (by decide)

/-- C4 fails on the code (a code defect, the one of C3). Layout auxiliary, headstage,
    auxiliary; one device channel; the two-point packet, so `L = 2` and the second
    auxiliary channel (`j = 1 < min(2, 16)`, output channel 2) is to carry
    `SampleMatrix[0][0] * 1000 = 1000`. The headstage channel before it, at output
    index 1, makes line 242 read `INSData[1]`, a row that does not exist: the cycle
    has no result, and the loop stopped with output channel 2 still as the host buffer
    held it. -/
theorem aux_after_misindexed_headstage :
    (decoded ieeeOps (SourceState.fresh 1 blankState) replyTwoPoints).overrun = false ∧
    (decoded ieeeOps (SourceState.fresh 1 blankState) replyTwoPoints).threw = false ∧
    (decoded ieeeOps (SourceState.fresh 1 blankState) replyTwoPoints).length = 2 ∧
    ieeeOps.mul ((decoded ieeeOps (SourceState.fresh 1 blankState) replyTwoPoints).data 0 0)
      (ieeeOps.ofInt 1000) = some 1000 ∧
    (filled ieeeOps
      [ChannelType.AUX_CHANNEL, ChannelType.HEADSTAGE_CHANNEL, ChannelType.AUX_CHANNEL]
      (SourceState.fresh 1 blankState) (constArray2 none)
      (decoded ieeeOps (SourceState.fresh 1 blankState) replyTwoPoints)).fault = true ∧
    (filled ieeeOps
      [ChannelType.AUX_CHANNEL, ChannelType.HEADSTAGE_CHANNEL, ChannelType.AUX_CHANNEL]
      (SourceState.fresh 1 blankState) (constArray2 none)
      (decoded ieeeOps (SourceState.fresh 1 blankState) replyTwoPoints)).buffer 2 0 = none ∧
    (process ieeeOps
      [ChannelType.AUX_CHANNEL, ChannelType.HEADSTAGE_CHANNEL, ChannelType.AUX_CHANNEL]
      (SourceState.fresh 1 blankState) (constArray2 none) replyTwoPoints).isNone = true := by
  decide!

theorem headstageCase_written {F : Type} (ops : FloatOps F) (s : SourceState F) (L : Int)
    (iChan : Nat) (st : FillState F) (hh : st.iHeadstage < s.nChans)
    (hnf : (headstageCase ops s L iChan st).fault = false) :
    headstageCase ops s L iChan st =
      { st with
        buffer := writeSamples L iChan
          (fun iSample =>
            ops.sub (ops.mul (s.INSData iChan iSample) (ops.ofInt 1000))
              (s.chanMeans st.iHeadstage))
          st.buffer,
        iHeadstage := st.iHeadstage + 1 } := by
  unfold headstageCase at hnf ⊢
  rw [if_neg (by omega)] at hnf ⊢
  by_cases hb : 1 ≤ L ∧ s.nChans ≤ iChan
  · rw [if_pos hb] at hnf
    exact Bool.noConfusion hnf
  · rw [if_neg hb]

theorem auxCase_iHeadstage {F : Type} (ops : FloatOps F) (s : SourceState F) (L : Int)
    (iChan : Nat) (st : FillState F) :
    (auxCase ops s L iChan st).iHeadstage = st.iHeadstage := by
  unfold auxCase
  dsimp only
  split_ifs <;> rfl

/-- In a channel loop that ends without an out-of-bounds read, the headstage channel
    at position `p` of the remaining layout, `k` headstage channels after the current
    one, is filled from `INSData[iChan + p]`, the row with the output channel's own
    index, and from the mean of device channel `iHeadstage + k`. -/
theorem channelLoop_headstage {F : Type} (ops : FloatOps F) (s : SourceState F) (L : Int)
    (channels : List ChannelType) (iChan : Nat) (st : FillState F)
    (hfin : (channelLoop ops s L channels iChan st).fault = false) (p k : Nat)
    (hp : channels[p]? = some ChannelType.HEADSTAGE_CHANNEL)
    (hk : (channels.take p).count ChannelType.HEADSTAGE_CHANNEL = k)
    (hlt : st.iHeadstage + k < s.nChans) (i : Nat) (hi : (i : Int) < L) :
    (channelLoop ops s L channels iChan st).buffer (iChan + p) i =
      ops.sub (ops.mul (s.INSData (iChan + p) i) (ops.ofInt 1000))
        (s.chanMeans (st.iHeadstage + k)) := by
  induction channels generalizing iChan st p k with
  | nil => simp at hp
  | cons t rest ih =>
    obtain ⟨hsf, hcf, hrest⟩ := channelLoop_no_fault ops s L t rest iChan st hfin
    show (channelLoop ops s L rest (iChan + 1) (channelCase ops s L t iChan st)).buffer
      (iChan + p) i = _
    cases p with
    | zero =>
      simp only [List.getElem?_cons_zero, Option.some.injEq] at hp
      subst hp
      simp only [List.take_zero, List.count_nil] at hk
      subst hk
      rw [channelCase_headstage ops s L iChan st hsf] at hcf ⊢
      rw [channelLoop_before ops s L rest (iChan + 1) _ (iChan + 0) i (by omega),
        headstageCase_written ops s L iChan st (by omega) hcf]
      show writeSamples _ _ _ _ (iChan + 0) i = _
      rw [writeSamples_apply, if_pos ⟨by omega, hi⟩]
      rfl
    | succ p =>
      simp only [List.getElem?_cons_succ] at hp
      rw [List.take_succ_cons, List.count_cons] at hk
      have hidx : iChan + (p + 1) = (iChan + 1) + p := by omega
      rw [hidx]
      cases t with
      | HEADSTAGE_CHANNEL =>
        simp only [beq_self_eq_true, if_true] at hk
        rw [channelCase_headstage ops s L iChan st hsf] at hcf hrest ⊢
        obtain ⟨st', hst', hH⟩ : ∃ st', headstageCase ops s L iChan st = st' ∧
            st'.iHeadstage = st.iHeadstage + 1 :=
          ⟨_, headstageCase_written ops s L iChan st (by omega) hcf, rfl⟩
        rw [hst'] at hrest ⊢
        have e : st'.iHeadstage + List.count ChannelType.HEADSTAGE_CHANNEL (List.take p rest)
            = st.iHeadstage + k := by omega
        have := ih (iChan + 1) st' hrest p
          (List.count ChannelType.HEADSTAGE_CHANNEL (List.take p rest)) hp rfl (by omega)
        rw [this, e]
      | AUX_CHANNEL =>
        simp only [beq_iff_eq, reduceCtorEq, if_false, Nat.add_zero] at hk
        rw [channelCase_aux ops s L iChan st hsf] at hrest ⊢
        have hH := auxCase_iHeadstage ops s L iChan st
        have := ih (iChan + 1) (auxCase ops s L iChan st) hrest p k hp hk
          (by rw [hH]; exact hlt)
        rw [hH] at this
        exact this
      | ADC_CHANNEL =>
        simp only [beq_iff_eq, reduceCtorEq, if_false, Nat.add_zero] at hk
        rw [channelCase_adc] at hrest ⊢
        exact ih (iChan + 1) st hrest p k hp hk hlt

/-- C3 fails on the code (a code defect). Layout auxiliary, headstage; two device
    channels; one time point with samples 1.0 and 2.0, so the means are 1 and 2. The
    first headstage channel (output channel 1) receives `INSData[1][0]*1000 - mean[0]
    = 1999`, not `INSData[0][0]*1000 - mean[0] = 999`. -/
theorem headstage_after_aux_reads_own_index :
    (process ieeeOps [ChannelType.AUX_CHANNEL, ChannelType.HEADSTAGE_CHANNEL]
        (SourceState.fresh 2 blankState) (constArray2 none) replyTwoChannels).map
      (fun r =>
        (r.2.1 1 0,
         ieeeOps.sub (ieeeOps.mul (r.1.INSData 0 0) (ieeeOps.ofInt 1000)) (r.1.chanMeans 0),
         ieeeOps.sub (ieeeOps.mul (r.1.INSData 1 0) (ieeeOps.ofInt 1000)) (r.1.chanMeans 0)))
      = some (some 1999, some 999, some 1999) := by
  decide!

/-! ## `process`: the sample counter and the previous packet number -/

/-- A 32-bit operation that does not overflow gives the exact result. -/
theorem wrap32_of_fits {x : Int} (h : fitsInt32 x) : wrap32 x = x := by
  unfold fitsInt32 at h
  unfold wrap32
  omega

/-- The result of a 32-bit operation is a 32-bit value. -/
theorem wrap32_fits (x : Int) : fitsInt32 (wrap32 x) := by
  unfold fitsInt32 wrap32
  omega

/-- The two branches of the counter update when no operation overflows. -/
theorem countSamples_cases (counter prev first pointCount nominal : Int)
    (hsub : fitsInt32 (prev - first)) :
    (prev - first ≤ 1 → fitsInt32 (counter + pointCount) →
      countSamples counter prev first pointCount nominal - counter = pointCount) ∧
    (prev - first - 1 > 0 → fitsInt32 (nominal * (prev - first - 1)) →
      fitsInt32 (counter + nominal * (prev - first - 1)) →
      countSamples counter prev first pointCount nominal - counter
        = nominal * (prev - first - 1)) := by
  have e := wrap32_of_fits hsub
  constructor
  · intro h hsum
    have hb : ¬ gapBranch prev first := by
      unfold gapBranch; rw [e]; omega
    unfold countSamples
    rw [if_neg hb, wrap32_of_fits hsum]; ring
  · intro h hmul hsum
    have hg : fitsInt32 (prev - first - 1) := by
      unfold fitsInt32 at hsub ⊢
      omega
    have hb : gapBranch prev first := by
      unfold gapBranch; rw [e]; omega
    unfold countSamples
    rw [if_pos hb, e, wrap32_of_fits hg, wrap32_of_fits hmul, wrap32_of_fits hsum]; ring

/-- C7 fails on the code: the counter update is 32-bit `int` arithmetic. With the
    stored previous packet number 100007, first packet number 7 and nominal packet
    size 100000 the gap is `g = 99999 > 0` and the counter, from 0, goes up by
    `1409965408`, the low 32 bits of `100000 * 99999 = 9999900000`. -/
theorem gap_increment_wraps :
    (100007 : Int) - 7 - 1 > 0 ∧
    countSamples 0 100007 7 2 100000 - 0 = 1409965408 ∧
    countSamples 0 100007 7 2 100000 - 0 ≠ 100000 * ((100007 : Int) - 7 - 1) := by
  decide

/-- C7 as amended. In one cycle that completes, with `prev` the stored previous packet
    number, `first` the first packet number of the cycle, `pointCount` the decoded
    length and `nominal` the configured packet size, all 32-bit `int` values: if the
    `int` subtraction `prev - first` does not overflow, the cumulative sample counter
    goes up by exactly `pointCount` when `prev - first ≤ 1` and the new counter value
    does not overflow, and by exactly `nominal * g` when `g = prev - first - 1 > 0`
    and neither the product nor the new counter value overflows. -/
theorem counter_advance {F : Type} (ops : FloatOps F) (channels : List ChannelType)
    (s : SourceState F) (buffer : Nat → Nat → F) (reply : List Byte)
    (hdec : (decoded ops s reply).overrun = false)
    (hthrow : (decoded ops s reply).threw = false)
    (hfill : (filled ops channels s buffer (decoded ops s reply)).fault = false) :
    ∃ s' buffer' pointCount,
      process ops channels s buffer reply = some (s', buffer', pointCount) ∧
      pointCount = (decoded ops s reply).length ∧
      s'.packetNumbers = (decoded ops s reply).packNums ∧
      (fitsInt32 (s.m_packetNumPrev - s'.packetNumbers 0) →
        s.m_packetNumPrev - s'.packetNumbers 0 ≤ 1 →
        fitsInt32 (s.m_sampleCounter + pointCount) →
        s'.m_sampleCounter - s.m_sampleCounter = pointCount) ∧
      (fitsInt32 (s.m_packetNumPrev - s'.packetNumbers 0) →
        s.m_packetNumPrev - s'.packetNumbers 0 - 1 > 0 →
        fitsInt32 (s.m_packetDropSize * (s.m_packetNumPrev - s'.packetNumbers 0 - 1)) →
        fitsInt32 (s.m_sampleCounter
          + s.m_packetDropSize * (s.m_packetNumPrev - s'.packetNumbers 0 - 1)) →
        s'.m_sampleCounter - s.m_sampleCounter
          = s.m_packetDropSize * (s.m_packetNumPrev - s'.packetNumbers 0 - 1)) ∧
      ∀ counter prev first pc nominal : Int, fitsInt32 (prev - first) →
        (prev - first ≤ 1 → fitsInt32 (counter + pc) →
          countSamples counter prev first pc nominal - counter = pc) ∧
        (prev - first - 1 > 0 → fitsInt32 (nominal * (prev - first - 1)) →
          fitsInt32 (counter + nominal * (prev - first - 1)) →
          countSamples counter prev first pc nominal - counter
            = nominal * (prev - first - 1)) := by
  refine ⟨_, _, _, process_completes ops channels s buffer reply hdec hthrow hfill, rfl, rfl,
    ?_, ?_, ?_⟩
  · intro hsub
    exact (countSamples_cases s.m_sampleCounter s.m_packetNumPrev
      ((decoded ops s reply).packNums 0) (decoded ops s reply).length s.m_packetDropSize
      hsub).1
  · intro hsub
    exact (countSamples_cases s.m_sampleCounter s.m_packetNumPrev
      ((decoded ops s reply).packNums 0) (decoded ops s reply).length s.m_packetDropSize
      hsub).2
  · exact fun counter prev first pc nominal hsub =>
      countSamples_cases counter prev first pc nominal hsub

/-- C7 as amended, on the two-point packet (first packet number 7, stored previous
    number 0). -/
theorem counter_advance_witness :
    ∃ s' buffer' pointCount,
      process ieeeOps [ChannelType.HEADSTAGE_CHANNEL] (SourceState.fresh 1 blankState)
          (constArray2 none) replyTwoPoints = some (s', buffer', pointCount) ∧
      pointCount = (decoded ieeeOps (SourceState.fresh 1 blankState) replyTwoPoints).length ∧
      s'.packetNumbers
        = (decoded ieeeOps (SourceState.fresh 1 blankState) replyTwoPoints).packNums ∧
      (fitsInt32 ((SourceState.fresh 1 blankState).m_packetNumPrev - s'.packetNumbers 0) →
        (SourceState.fresh 1 blankState).m_packetNumPrev - s'.packetNumbers 0 ≤ 1 →
        fitsInt32 ((SourceState.fresh 1 blankState).m_sampleCounter + pointCount) →
        s'.m_sampleCounter - (SourceState.fresh 1 blankState).m_sampleCounter = pointCount) ∧
      (fitsInt32 ((SourceState.fresh 1 blankState).m_packetNumPrev - s'.packetNumbers 0) →
        (SourceState.fresh 1 blankState).m_packetNumPrev - s'.packetNumbers 0 - 1 > 0 →
        fitsInt32 ((SourceState.fresh 1 blankState).m_packetDropSize
          * ((SourceState.fresh 1 blankState).m_packetNumPrev - s'.packetNumbers 0 - 1)) →
        fitsInt32 ((SourceState.fresh 1 blankState).m_sampleCounter
          + (SourceState.fresh 1 blankState).m_packetDropSize
            * ((SourceState.fresh 1 blankState).m_packetNumPrev - s'.packetNumbers 0 - 1)) →
        s'.m_sampleCounter - (SourceState.fresh 1 blankState).m_sampleCounter
          = (SourceState.fresh 1 blankState).m_packetDropSize
            * ((SourceState.fresh 1 blankState).m_packetNumPrev - s'.packetNumbers 0 - 1)) ∧
      ∀ counter prev first pc nominal : Int, fitsInt32 (prev - first) →
        (prev - first ≤ 1 → fitsInt32 (counter + pc) →
          countSamples counter prev first pc nominal - counter = pc) ∧
        (prev - first - 1 > 0 → fitsInt32 (nominal * (prev - first - 1)) →
          fitsInt32 (counter + nominal * (prev - first - 1)) →
          countSamples counter prev first pc nominal - counter
            = nominal * (prev - first - 1)) :=
  counter_advance ieeeOps [ChannelType.HEADSTAGE_CHANNEL] (SourceState.fresh 1 blankState)
    (constArray2 none) replyTwoPoints (by decide) (by decide) (by decide)

/-- No cycle assigns `m_packetNumPrev`. -/
theorem processDecoded_packetNumPrev {F : Type} (ops : FloatOps F)
    (channels : List ChannelType) (s : SourceState F) (buffer : Nat → Nat → F)
    (d : Deserialized F) :
    (processDecoded ops channels s buffer d).1.m_packetNumPrev = s.m_packetNumPrev := rfl

/-- C8 fails on the code (a code defect). A cycle that decodes the two-point packet,
    whose first packet number is 7, leaves the stored previous packet number at the
    value it had before the cycle (here 0): `process` never assigns `m_packetNumPrev`. -/
theorem packetNumPrev_not_updated :
    (process ieeeOps [ChannelType.HEADSTAGE_CHANNEL] (SourceState.fresh 1 blankState)
        (constArray2 none) replyTwoPoints).map
      (fun r => (r.2.2, r.1.packetNumbers 0, r.1.m_packetNumPrev))
      = some (2, 7, 0) := by
  decide

/-! ## `process`: the baseline -/

/-- C9 fails on the code (a code defect). An empty first cycle followed by the
    two-point packet (samples 1.0 and 2.0 of channel 0): the baseline was computed in
    the empty cycle as `0 / 0` and stays NaN (`none`), while the mean of the first
    non-empty packet is 3/2. -/
theorem means_from_empty_first_cycle :
    (cycles ieeeOps [ChannelType.HEADSTAGE_CHANNEL] (SourceState.fresh 1 blankState)
        [(constArray2 none, replyEmpty), (constArray2 none, replyTwoPoints)]).map
      (fun s => (s.m_loop, s.chanMeans 0, channelMean ieeeOps s.INSData 2 0))
      = some (2, none, some (3 / 2)) := by
  decide!

/-- The mean loop body on an empty packet stores `0 / 0`. -/
theorem meanStep_empty {F : Type} (ops : FloatOps F) (INSData : Nat → Nat → F)
    (iChan : Nat) (chanMeans : Nat → F) (c : Nat) :
    meanStep ops INSData 0 iChan chanMeans c =
      if c = iChan then ops.div (ops.ofInt 0) (ops.ofInt 0) else chanMeans c := by
  unfold meanStep
  simp only [Int.toNat_zero, forLoop_zero]
  by_cases hk : c = iChan
  · subst hk
    simp [set1]
  · simp [set1, hk]

/-- Whatever the later packets are, the baseline computed in an empty first cycle is
    `0 / 0` for every device channel. -/
theorem computeMeans_empty {F : Type} (ops : FloatOps F) (nChans : Nat)
    (INSData : Nat → Nat → F) (chanMeans : Nat → F) (c : Nat) (hc : c < nChans) :
    computeMeans ops nChans 0 INSData 0 chanMeans c = ops.div (ops.ofInt 0) (ops.ofInt 0) := by
  unfold computeMeans
  rw [if_pos rfl]
  have key : ∀ k : Nat, c < k →
      forLoop k (meanStep ops INSData 0) chanMeans c = ops.div (ops.ofInt 0) (ops.ofInt 0) := by
    intro k
    induction k with
    | zero => intro h; omega
    | succ k ih =>
      intro h
      rw [forLoop_succ, meanStep_empty]
      by_cases hk : c = k
      · rw [if_pos hk]
      · rw [if_neg hk]
        exact ih (by omega)
  exact key nChans hc

theorem set1_apply {α : Type} (a : Nat → α) (i : Nat) (v : α) (i' : Nat) :
    set1 a i v i' = if i' = i then v else a i' := rfl

/-- The accumulation loop of lines 178-181 adds the samples of channel `iChan` to
    `chanMeans[iChan]` in sample order and touches no other entry. -/
theorem sumLoop_apply {F : Type} (ops : FloatOps F) (INSData : Nat → Nat → F) (iChan : Nat)
    (z : Nat → F) (k c : Nat) :
    forLoop k (fun iSample cm => set1 cm iChan (ops.add (cm iChan) (INSData iChan iSample))) z c
      = if c = iChan then ((List.range k).map (INSData iChan)).foldl ops.add (z iChan)
        else z c := by
  induction k generalizing c with
  | zero =>
    rw [forLoop_zero]
    by_cases h : c = iChan
    · rw [if_pos h, h]; rfl
    · rw [if_neg h]
  | succ k ih =>
    rw [forLoop_succ]
    show set1 _ iChan _ c = _
    rw [set1_apply]
    by_cases h : c = iChan
    · rw [if_pos h, if_pos h, ih iChan, if_pos rfl, List.range_succ, List.map_append,
        List.foldl_append]
      rfl
    · rw [if_neg h, if_neg h, ih c, if_neg h]

/-- The mean loop body stores the arithmetic mean of channel `iChan`. -/
theorem meanStep_apply {F : Type} (ops : FloatOps F) (INSData : Nat → Nat → F) (L : Int)
    (iChan : Nat) (chanMeans : Nat → F) (c : Nat) :
    meanStep ops INSData L iChan chanMeans c =
      if c = iChan then channelMean ops INSData L iChan else chanMeans c := by
  show set1 _ iChan _ c = _
  rw [set1_apply]
  by_cases h : c = iChan
  · rw [if_pos h, if_pos h, sumLoop_apply, if_pos rfl, set1_apply, if_pos rfl]
    rfl
  · rw [if_neg h, if_neg h, sumLoop_apply, if_neg h, set1_apply, if_neg h]

/-- In the cycle with `m_loop = 0` the baseline of every device channel becomes the
    arithmetic mean of that cycle's samples of the channel. -/
theorem computeMeans_first_cycle {F : Type} (ops : FloatOps F) (nChans : Nat)
    (INSData : Nat → Nat → F) (L : Int) (chanMeans : Nat → F) (c : Nat) :
    computeMeans ops nChans 0 INSData L chanMeans c =
      if c < nChans then channelMean ops INSData L c else chanMeans c := by
  unfold computeMeans
  rw [if_pos rfl]
  induction nChans with
  | zero => rw [forLoop_zero, if_neg (by omega)]
  | succ k ih =>
    rw [forLoop_succ, meanStep_apply]
    by_cases h : c = k
    · rw [if_pos h, if_pos (by omega), h]
    · rw [if_neg h, ih]
      by_cases h2 : c < k
      · rw [if_pos h2, if_pos (by omega)]
      · rw [if_neg h2, if_neg (by omega)]

/-- The cycle counter after a run of completed cycles. -/
theorem cycles_m_loop {F : Type} (ops : FloatOps F) (channels : List ChannelType)
    (pre : List ((Nat → Nat → F) × List Byte)) (s0 s : SourceState F)
    (h : cycles ops channels s0 pre = some s) :
    s.m_loop = s0.m_loop + pre.length := by
  induction pre generalizing s0 with
  | nil =>
    simp only [cycles, Option.some.injEq] at h
    subst h
    simp
  | cons x rest ih =>
    obtain ⟨buffer, reply⟩ := x
    unfold cycles at h
    cases hp : process ops channels s0 buffer reply with
    | none =>
      rw [hp] at h
      exact absurd h (by simp)
    | some r =>
      rw [hp, (process_eq_some hp).2.2.2] at h
      have := ih _ h
      rw [this]
      show s0.m_loop + 1 + _ = _
      simp only [List.length_cons]
      push_cast
      ring

/-- C10. In every run of acquisition cycles from the freshly constructed object
    (`m_loop = 0`), every cycle that runs after the first non-empty cycle, whatever its
    reply carries, leaves every entry of `chanMeans` as it was before the cycle: the
    baseline computation of lines 173-184 changes nothing, and when the cycle runs to
    its end (it neither reads beyond its reply, nor throws, nor reads beyond
    `INSData`) the object it returns has the same `chanMeans`. -/
theorem chanMeans_frozen {F : Type} (ops : FloatOps F) (channels : List ChannelType)
    (s0 s : SourceState F) (pre : List ((Nat → Nat → F) × List Byte))
    (h0 : s0.m_loop = 0)
    (hrun : cycles ops channels s0 pre = some s)
    (hne : ∃ x ∈ pre, ∃ L : Int, declaredLength x.2 = some L ∧ 0 < L)
    (buffer : Nat → Nat → F) (reply : List Byte) :
    (∀ c, (counted ops s (decoded ops s reply)).chanMeans c = s.chanMeans c) ∧
    ((decoded ops s reply).overrun = false →
      (decoded ops s reply).threw = false →
      (filled ops channels s buffer (decoded ops s reply)).fault = false →
      ∃ s' buffer' n,
        process ops channels s buffer reply = some (s', buffer', n) ∧
        ∀ c, s'.chanMeans c = s.chanMeans c) := by
  have hlen : 0 < pre.length := by
    obtain ⟨x, hx, -⟩ := hne
    exact List.length_pos_of_mem hx
  have hloop : s.m_loop ≠ 0 := by
    rw [cycles_m_loop ops channels pre s0 s hrun, h0]
    omega
  have hframe : ∀ c, (counted ops s (decoded ops s reply)).chanMeans c = s.chanMeans c := by
    intro c
    show computeMeans ops s.nChans s.m_loop _ _ s.chanMeans c = _
    unfold computeMeans
    rw [if_neg hloop]
  refine ⟨hframe, fun hdec hthrow hfill =>
    ⟨_, _, _, process_completes ops channels s buffer reply hdec hthrow hfill, hframe⟩⟩

/-- C10 on a run of one non-empty cycle (the two-point packet) followed by a cycle on
    a different packet, which runs to its end. -/
theorem chanMeans_frozen_witness :
    (∀ c, (counted ieeeOps afterTwoPoints (decoded ieeeOps afterTwoPoints replyOnePoint)).chanMeans c
        = afterTwoPoints.chanMeans c) ∧
    ∃ s' buffer' n,
      process ieeeOps [ChannelType.HEADSTAGE_CHANNEL] afterTwoPoints (constArray2 none)
          replyOnePoint = some (s', buffer', n) ∧
      ∀ c, s'.chanMeans c = afterTwoPoints.chanMeans c :=
  ⟨(chanMeans_frozen ieeeOps [ChannelType.HEADSTAGE_CHANNEL] (SourceState.fresh 1 blankState)
      afterTwoPoints [(constArray2 none, replyTwoPoints)] rfl
      (by
        show (match process ieeeOps [ChannelType.HEADSTAGE_CHANNEL]
            (SourceState.fresh 1 blankState) (constArray2 none) replyTwoPoints with
          | none => none
          | some (s', _, _) => cycles ieeeOps [ChannelType.HEADSTAGE_CHANNEL] s' []) = _
        rw [process_completes ieeeOps _ _ _ _ (by decide) (by decide) (by decide)]
        rfl)
      ⟨(constArray2 none, replyTwoPoints), by simp, 2, by decide, by decide⟩
      (constArray2 none) replyOnePoint).1,
   (chanMeans_frozen ieeeOps [ChannelType.HEADSTAGE_CHANNEL] (SourceState.fresh 1 blankState)
      afterTwoPoints [(constArray2 none, replyTwoPoints)] rfl
      (by
        show (match process ieeeOps [ChannelType.HEADSTAGE_CHANNEL]
            (SourceState.fresh 1 blankState) (constArray2 none) replyTwoPoints with
          | none => none
          | some (s', _, _) => cycles ieeeOps [ChannelType.HEADSTAGE_CHANNEL] s' []) = _
        rw [process_completes ieeeOps _ _ _ _ (by decide) (by decide) (by decide)]
        rfl)
      ⟨(constArray2 none, replyTwoPoints), by simp, 2, by decide, by decide⟩
      (constArray2 none) replyOnePoint).2 (by decide) (by decide) (by decide!)⟩

end SummitSource

/-! ## `SummitStimSink::process` -/

namespace SummitStimSink

/-- C6. For every decision state, a tick whose decision input channel delivers zero
    samples publishes nothing and returns the state (`m_class`, `m_prevClass` and the
    debounce counter `m_loop`) exactly as it was. -/
theorem no_samples_no_action (s : SinkState) (sample : Int) :
    process s 0 sample = (s, none) := by
  simp [process]

/-- A tick in the suppression window: the previous class is published again and the
    counter goes up by two. -/
theorem process_suppressed (s : SinkState) (x : Int) (h : s.m_loop < 11) :
    process s 1 x =
      ({ m_class := s.m_prevClass, m_loop := s.m_loop + 1 + 1, m_prevClass := s.m_prevClass },
        some s.m_prevClass) := by
  simp [process, h]

/-- A tick outside the suppression window whose raw class is the previous class. -/
theorem process_same (s : SinkState) (x : Int) (h : ¬ s.m_loop < 11) (hx : x = s.m_prevClass) :
    process s 1 x =
      ({ m_class := x, m_loop := s.m_loop + 1, m_prevClass := x }, some x) := by
  simp [process, h, hx]

/-- A tick outside the suppression window whose raw class differs: the switch is
    published at once and the counter restarts. -/
theorem process_switch (s : SinkState) (x : Int) (h : ¬ s.m_loop < 11) (hx : s.m_prevClass ≠ x) :
    process s 1 x = ({ m_class := x, m_loop := 0 + 1, m_prevClass := x }, some x) := by
  simp [process, h, hx]

/-- How the run of C5 evolves: the state before tick `n`. -/
theorem ticks_changeAt (k : Nat) (a b m : Int) (hab : a ≠ b) (n : Nat) :
    (n ≤ max k 6 →
      (ticks (freshSink a m) (changeAt k a b) n).m_prevClass = a ∧
      (n ≤ 6 → (ticks (freshSink a m) (changeAt k a b) n).m_loop = 2 * (n : Int)) ∧
      (6 ≤ n → 12 ≤ (ticks (freshSink a m) (changeAt k a b) n).m_loop)) ∧
    (max k 6 < n → (ticks (freshSink a m) (changeAt k a b) n).m_prevClass = b) := by
  induction n with
  | zero =>
    refine ⟨fun _ => ⟨rfl, fun _ => rfl, fun h => by omega⟩, fun h => by omega⟩
  | succ n ih =>
    obtain ⟨ih1, ih2⟩ := ih
    show (_ → (process (ticks (freshSink a m) (changeAt k a b) n) 1 (changeAt k a b n)).1.m_prevClass = a
        ∧ (_ → (process (ticks (freshSink a m) (changeAt k a b) n) 1 (changeAt k a b n)).1.m_loop = _)
        ∧ (_ → 12 ≤ (process (ticks (freshSink a m) (changeAt k a b) n) 1 (changeAt k a b n)).1.m_loop))
      ∧ (_ → (process (ticks (freshSink a m) (changeAt k a b) n) 1 (changeAt k a b n)).1.m_prevClass = b)
    rcases Nat.lt_or_ge n 6 with h6 | h6
    · obtain ⟨hp, hl, -⟩ := ih1 (by omega)
      have hl' := hl (by omega)
      rw [process_suppressed _ _ (by omega)]
      refine ⟨fun _ => ⟨hp, fun _ => ?_, fun _ => ?_⟩, fun h => by omega⟩
      · show _ + 1 + 1 = _
        rw [hl']; push_cast; ring
      · show 12 ≤ _ + 1 + 1
        rw [hl']; omega
    · rcases Nat.lt_trichotomy n (max k 6) with hlt | heq | hgt
      · obtain ⟨hp, -, hl⟩ := ih1 (by omega)
        have hl' := hl h6
        have hraw : changeAt k a b n = a := by
          unfold changeAt; rw [if_pos (by omega)]
        rw [hraw, process_same _ _ (by omega) hp.symm]
        refine ⟨fun _ => ⟨rfl, fun h => by omega, fun _ => ?_⟩, fun h => by omega⟩
        show 12 ≤ _ + 1
        omega
      · obtain ⟨hp, -, hl⟩ := ih1 (by omega)
        have hl' := hl h6
        have hraw : changeAt k a b n = b := by
          unfold changeAt; rw [if_neg (by omega)]
        rw [hraw, process_switch _ _ (by omega) (by rw [hp]; exact hab)]
        exact ⟨fun h => by omega, fun _ => rfl⟩
      · have hp := ih2 hgt
        have hraw : changeAt k a b n = b := by
          unfold changeAt; rw [if_neg (by omega)]
        rw [hraw]
        refine ⟨fun h => by omega, fun _ => ?_⟩
        by_cases hs : (ticks (freshSink a m) (changeAt k a b) n).m_loop < 11
        · rw [process_suppressed _ _ hs]; exact hp
        · rw [process_same _ _ hs hp.symm]

/-- C5 fails on the code: with the raw class changing from 0 to 1 at cycle 5, the
    published class is already 1 at cycle 6, not 0 up to cycle 15. -/
theorem switch_not_delayed_eleven :
    ¬ ((∀ n, n < 5 + 11 → published (freshSink 0 0) (changeAt 5 0 1) n = some 0) ∧
        published (freshSink 0 0) (changeAt 5 0 1) (5 + 11) = some 1) := by
  intro h
  have h6 := h.1 6 (by decide)
  revert h6
  decide

/-- C5 as amended. Starting from the freshly constructed sink whose stabilized class is
    `a`, with the raw class `a` before cycle `k` and `b ≠ a` from cycle `k` on, the
    published class is `a` at every cycle before `max k 6` and `b` at cycle `max k 6`
    and at every later cycle: the switch is published at cycle `k` itself, or at cycle
    6 when `k` falls inside the start-up suppression window. -/
theorem switch_published_at (k : Nat) (a b m : Int) (_hk : 1 ≤ k) (hab : a ≠ b) (n : Nat) :
    (n < max k 6 → published (freshSink a m) (changeAt k a b) n = some a) ∧
    (max k 6 ≤ n → published (freshSink a m) (changeAt k a b) n = some b) := by
  obtain ⟨h1, h2⟩ := ticks_changeAt k a b m hab n
  constructor
  · intro hn
    obtain ⟨hp, hl, hl2⟩ := h1 (by omega)
    unfold published
    rcases Nat.lt_or_ge n 6 with h6 | h6
    · have := hl (by omega)
      rw [process_suppressed _ _ (by omega), hp]
    · have := hl2 h6
      have hraw : changeAt k a b n = a := by
        unfold changeAt; rw [if_pos (by omega)]
      rw [hraw, process_same _ _ (by omega) hp.symm]
  · intro hn
    have hraw : changeAt k a b n = b := by
      unfold changeAt; rw [if_neg (by omega)]
    unfold published
    rw [hraw]
    rcases Nat.eq_or_lt_of_le hn with heq | hgt
    · obtain ⟨hp, -, hl2⟩ := h1 (by omega)
      have := hl2 (by omega)
      rw [process_switch _ _ (by omega) (by rw [hp]; exact hab)]
    · have hp := h2 hgt
      by_cases hs : (ticks (freshSink a m) (changeAt k a b) n).m_loop < 11
      · rw [process_suppressed _ _ hs, hp]
      · rw [process_same _ _ hs hp.symm]

/-- C5 as amended, for a change at cycle 3 from class 0 to class 1, seen at cycle 6. -/
theorem switch_published_at_witness :
    ((6 : Nat) < max 3 6 → published (freshSink 0 0) (changeAt 3 0 1) 6 = some 0) ∧
    (max 3 6 ≤ (6 : Nat) → published (freshSink 0 0) (changeAt 3 0 1) 6 = some 1) :=
  switch_published_at 3 0 1 0 (by decide) (by decide) 6

end SummitStimSink

/-! ## `process`: auxiliary channels beyond the lookback history -/

namespace SummitSource

theorem headstageCase_no_samples {F : Type} (ops : FloatOps F) (s : SourceState F) (L : Int)
    (hL : L ≤ 0) (iChan : Nat) (st : FillState F) (q i : Nat) :
    (headstageCase ops s L iChan st).buffer q i = st.buffer q i := by
  unfold headstageCase
  split_ifs <;> first
    | rfl
    | (show writeSamples _ _ _ _ q i = _
       rw [writeSamples_apply, if_neg (fun h => by have := h.2; omega)])

theorem auxCase_no_samples {F : Type} (ops : FloatOps F) (s : SourceState F) (L : Int)
    (hL : L ≤ 0) (iChan : Nat) (st : FillState F) (q i : Nat) :
    (auxCase ops s L iChan st).buffer q i = st.buffer q i := by
  unfold auxCase
  dsimp only
  split_ifs <;> first
    | rfl
    | (show writeSamples _ _ _ _ q i = _
       rw [writeSamples_apply, if_neg (fun h => by have := h.2; omega)])

/-- With no time point to write, an iteration of the channel loop writes nothing. -/
theorem channelCase_no_samples {F : Type} (ops : FloatOps F) (s : SourceState F) (L : Int)
    (hL : L ≤ 0) (t : ChannelType) (iChan : Nat) (st : FillState F) (q i : Nat) :
    (channelCase ops s L t iChan st).buffer q i = st.buffer q i := by
  by_cases hf : st.fault = true
  · rw [channelCase_faulted ops s L t iChan st hf]
  · have hf' : st.fault = false := by simpa using hf
    cases t with
    | HEADSTAGE_CHANNEL =>
      rw [channelCase_headstage ops s L iChan st hf']
      exact headstageCase_no_samples ops s L hL iChan st q i
    | AUX_CHANNEL =>
      rw [channelCase_aux ops s L iChan st hf']
      exact auxCase_no_samples ops s L hL iChan st q i
    | ADC_CHANNEL => rw [channelCase_adc]

theorem channelLoop_no_samples {F : Type} (ops : FloatOps F) (s : SourceState F) (L : Int)
    (hL : L ≤ 0) (channels : List ChannelType) (iChan : Nat) (st : FillState F) (q i : Nat) :
    (channelLoop ops s L channels iChan st).buffer q i = st.buffer q i := by
  induction channels generalizing iChan st with
  | nil => rfl
  | cons t rest ih =>
    show (channelLoop ops s L rest (iChan + 1) (channelCase ops s L t iChan st)).buffer q i = _
    rw [ih (iChan + 1) _, channelCase_no_samples ops s L hL t iChan st q i]

/-- The `AUX_CHANNEL` case once the history of device channel 0 is complete: the
    channel is skipped, and the cursors say so from then on. -/
theorem auxCase_done {F : Type} (ops : FloatOps F) (s : SourceState F) (L : Int)
    (iChan : Nat) (st : FillState F) (h1 : (st.iHist : Int) ≤ L - 1)
    (h2 : (st.iHist : Int) > s.m_featuresHistory ∨ 0 < st.iChanHist) :
    (auxCase ops s L iChan st).buffer = st.buffer ∧
    ((auxCase ops s L iChan st).iHist = 0 ∨ (auxCase ops s L iChan st).iHist = st.iHist) ∧
    0 < (auxCase ops s L iChan st).iChanHist := by
  unfold auxCase
  rw [if_neg (by omega)]
  dsimp only
  by_cases h3 : (st.iHist : Int) > s.m_featuresHistory
  · rw [if_pos h3]
    rw [if_pos (show (0 : Nat) < st.iChanHist + 1 by omega)]
    exact ⟨rfl, Or.inl rfl, by show 0 < st.iChanHist + 1; omega⟩
  · rw [if_neg h3]
    have h4 : 0 < st.iChanHist := by
      rcases h2 with h2 | h2
      · exact absurd h2 h3
      · exact h2
    rw [if_pos h4]
    exact ⟨rfl, Or.inr rfl, h4⟩

/-- After the feature-channel cursor has moved on, no auxiliary channel is written. -/
theorem channelLoop_aux_done {F : Type} (ops : FloatOps F) (s : SourceState F) (L : Int)
    (channels : List ChannelType) (iChan : Nat) (st : FillState F) (p : Nat)
    (h0 : 0 < st.iChanHist) (h1 : (st.iHist : Int) ≤ L - 1)
    (hp : channels[p]? = some ChannelType.AUX_CHANNEL) (i : Nat) :
    (channelLoop ops s L channels iChan st).buffer (iChan + p) i = st.buffer (iChan + p) i := by
  induction channels generalizing iChan st p with
  | nil => simp at hp
  | cons t rest ih =>
    by_cases hf : st.fault = true
    · rw [channelLoop_faulted ops s L (t :: rest) iChan st hf]
    · have hsf : st.fault = false := by simpa using hf
      show (channelLoop ops s L rest (iChan + 1) (channelCase ops s L t iChan st)).buffer
        (iChan + p) i = _
      cases p with
      | zero =>
        simp only [List.getElem?_cons_zero, Option.some.injEq] at hp
        subst hp
        rw [channelLoop_before ops s L rest (iChan + 1) _ (iChan + 0) i (by omega),
          channelCase_aux ops s L iChan st hsf,
          (auxCase_done ops s L iChan st h1 (Or.inr h0)).1]
      | succ p =>
        simp only [List.getElem?_cons_succ] at hp
        have hidx : iChan + (p + 1) = (iChan + 1) + p := by omega
        rw [hidx]
        have hother := channelCase_other ops s L t iChan st (iChan + 1 + p) i (by omega)
        cases t with
        | HEADSTAGE_CHANNEL =>
          rw [channelCase_headstage ops s L iChan st hsf] at hother ⊢
          have hc := headstageCase_cursors ops s L iChan st
          exact (ih (iChan + 1) (headstageCase ops s L iChan st) p (by rw [hc.2]; exact h0)
            (by rw [hc.1]; exact h1) hp).trans hother
        | AUX_CHANNEL =>
          rw [channelCase_aux ops s L iChan st hsf] at hother ⊢
          obtain ⟨-, hI, hC⟩ := auxCase_done ops s L iChan st h1 (Or.inr h0)
          exact (ih (iChan + 1) (auxCase ops s L iChan st) p hC
            (by rcases hI with hI | hI <;> rw [hI] <;> omega) hp).trans hother
        | ADC_CHANNEL =>
          rw [channelCase_adc] at hother ⊢
          exact (ih (iChan + 1) st p h0 h1 hp).trans hother

/-- While history is being added: an auxiliary channel that comes after the
    `featuresHistory + 1` channels of the history is not written, provided the packet
    is longer than the history. -/
theorem channelLoop_aux_beyond {F : Type} (ops : FloatOps F) (s : SourceState F) (L : Int)
    (hL : 1 ≤ L) (hlong : s.m_featuresHistory + 1 < L)
    (channels : List ChannelType) (iChan : Nat) (st : FillState F) (p j : Nat)
    (h0 : st.iChanHist = 0) (h1 : (st.iHist : Int) ≤ max (s.m_featuresHistory + 1) 0)
    (hp : channels[p]? = some ChannelType.AUX_CHANNEL)
    (hj : (channels.take p).count ChannelType.AUX_CHANNEL = j)
    (hge : s.m_featuresHistory + 1 ≤ ((st.iHist + j : Nat) : Int)) (i : Nat) :
    (channelLoop ops s L channels iChan st).buffer (iChan + p) i = st.buffer (iChan + p) i := by
  induction channels generalizing iChan st p j with
  | nil => simp at hp
  | cons t rest ih =>
    by_cases hf : st.fault = true
    · rw [channelLoop_faulted ops s L (t :: rest) iChan st hf]
    · have hsf : st.fault = false := by simpa using hf
      have hroom : (st.iHist : Int) ≤ L - 1 := by omega
      show (channelLoop ops s L rest (iChan + 1) (channelCase ops s L t iChan st)).buffer
        (iChan + p) i = _
      cases p with
      | zero =>
        simp only [List.getElem?_cons_zero, Option.some.injEq] at hp
        subst hp
        simp only [List.take_zero, List.count_nil] at hj
        subst hj
        rw [channelLoop_before ops s L rest (iChan + 1) _ (iChan + 0) i (by omega),
          channelCase_aux ops s L iChan st hsf,
          (auxCase_done ops s L iChan st hroom (Or.inl (by omega))).1]
      | succ p =>
        simp only [List.getElem?_cons_succ] at hp
        rw [List.take_succ_cons, List.count_cons] at hj
        have hidx : iChan + (p + 1) = (iChan + 1) + p := by omega
        rw [hidx]
        have hother := channelCase_other ops s L t iChan st (iChan + 1 + p) i (by omega)
        cases t with
        | HEADSTAGE_CHANNEL =>
          simp only [beq_iff_eq, reduceCtorEq, if_false, Nat.add_zero] at hj
          rw [channelCase_headstage ops s L iChan st hsf] at hother ⊢
          have hc := headstageCase_cursors ops s L iChan st
          exact (ih (iChan + 1) (headstageCase ops s L iChan st) p j (by rw [hc.2]; exact h0)
            (by rw [hc.1]; exact h1) hp hj (by rw [hc.1]; exact hge)).trans hother
        | AUX_CHANNEL =>
          simp only [beq_self_eq_true, if_true] at hj
          rw [channelCase_aux ops s L iChan st hsf] at hother ⊢
          by_cases hfull : (st.iHist : Int) > s.m_featuresHistory
          · obtain ⟨-, hI, hC⟩ := auxCase_done ops s L iChan st hroom (Or.inl hfull)
            exact (channelLoop_aux_done ops s L rest (iChan + 1) (auxCase ops s L iChan st) p
              hC (by rcases hI with hI | hI <;> rw [hI] <;> omega) hp i).trans hother
          · by_cases hn : 0 < s.nChans
            · have hstep := auxCase_history ops s L iChan st hn h0 hroom (by omega)
              obtain ⟨st', hst', hI, hC⟩ : ∃ st', auxCase ops s L iChan st = st' ∧
                  st'.iHist = st.iHist + 1 ∧ st'.iChanHist = 0 := ⟨_, hstep, rfl, h0⟩
              rw [hst'] at hother ⊢
              exact (ih (iChan + 1) st' p
                (List.count ChannelType.AUX_CHANNEL (List.take p rest)) hC
                (by rw [hI]; push_cast; omega) hp rfl
                (by rw [hI]; push_cast; omega)).trans hother
            · have hstep := auxCase_history_fault ops s L iChan st (by omega) h0 hroom
                (by omega)
              rw [hstep, channelLoop_faulted ops s L rest (iChan + 1) _ rfl]
        | ADC_CHANNEL =>
          simp only [beq_iff_eq, reduceCtorEq, if_false, Nat.add_zero] at hj
          rw [channelCase_adc] at hother ⊢
          exact (ih (iChan + 1) st p j h0 h1 hp hj hge).trans hother

/-- C11 fails on the code. With `featuresHistory = 15`, a packet of exactly 16 time
    points and a layout of 17 auxiliary channels, the 17th auxiliary channel (output
    channel 16) is written: the lookback cursor stands at 16 and exceeds
    `packetLength - 1 = 15`, so line 252 sends the newest sample to it. -/
theorem remaining_aux_written_at_sixteen :
    (decoded ieeeOps (SourceState.fresh 1 blankState) (replyConstant 16)).length = 16 ∧
    (SourceState.fresh 1 blankState : SourceState (Option ℚ)).m_featuresHistory + 1 = 16 ∧
    (List.replicate 17 ChannelType.AUX_CHANNEL)[16]? = some ChannelType.AUX_CHANNEL ∧
    ((List.replicate 17 ChannelType.AUX_CHANNEL).take 16).count ChannelType.AUX_CHANNEL = 16 ∧
    (constArray2 none : Nat → Nat → Option ℚ) 16 0 = none ∧
    (process ieeeOps (List.replicate 17 ChannelType.AUX_CHANNEL)
        (SourceState.fresh 1 blankState) (constArray2 none) (replyConstant 16)).map
      (fun r => r.2.1 16 0) = some (some 1000) := by
  decide!

/-- C11 as amended. For every decoded packet with more than `featuresHistory + 1` time
    points and every layout, every auxiliary output channel that comes after the first
    `featuresHistory + 1` auxiliary channels (the `j`-th in declaration order with
    `j ≥ featuresHistory + 1`, at position `p`) is left unwritten for that cycle: the
    channel loop leaves each of its samples as the host buffer held it, and when the
    cycle runs to its end (it neither reads beyond its reply, nor throws, nor reads
    beyond `INSData`) the buffer it returns holds them so. -/
theorem aux_beyond_history_unwritten {F : Type} (ops : FloatOps F)
    (channels : List ChannelType) (s : SourceState F) (buffer : Nat → Nat → F)
    (reply : List Byte)
    (hlong : s.m_featuresHistory + 1 < (decoded ops s reply).length) (p j : Nat)
    (hp : channels[p]? = some ChannelType.AUX_CHANNEL)
    (hj : (channels.take p).count ChannelType.AUX_CHANNEL = j)
    (hge : s.m_featuresHistory + 1 ≤ (j : Int)) :
    (∀ i : Nat, (filled ops channels s buffer (decoded ops s reply)).buffer p i = buffer p i) ∧
    ((decoded ops s reply).overrun = false →
      (decoded ops s reply).threw = false →
      (filled ops channels s buffer (decoded ops s reply)).fault = false →
      ∃ s' buffer',
        process ops channels s buffer reply
          = some (s', buffer', (decoded ops s reply).length) ∧
        ∀ i : Nat, buffer' p i = buffer p i) := by
  have hframe : ∀ i : Nat,
      (filled ops channels s buffer (decoded ops s reply)).buffer p i = buffer p i := by
    intro i
    show (channelLoop ops (counted ops s (decoded ops s reply)) (decoded ops s reply).length
      channels 0
      { buffer := buffer, iHeadstage := 0, iChanHist := 0, iHist := 0, fault := false }).buffer
        p i = buffer p i
    rcases le_or_lt (decoded ops s reply).length 0 with hneg | hpos
    · exact channelLoop_no_samples ops _ _ hneg channels 0 _ p i
    · have := channelLoop_aux_beyond ops (counted ops s (decoded ops s reply))
        (decoded ops s reply).length (by omega) hlong channels 0
        { buffer := buffer, iHeadstage := 0, iChanHist := 0, iHist := 0, fault := false }
        p j rfl
        (by
          show ((0 : Nat) : Int) ≤ max (s.m_featuresHistory + 1) 0
          simp)
        hp hj
        (by
          show s.m_featuresHistory + 1 ≤ (((0 : Nat) + j : Nat) : Int)
          rw [Nat.zero_add]; exact hge)
        i
      simp only [Nat.zero_add] at this
      exact this
  exact ⟨hframe, fun hdec hthrow hfill =>
    ⟨_, _, process_completes ops channels s buffer reply hdec hthrow hfill, hframe⟩⟩

/-- C11 as amended, for `featuresHistory = 15`, a packet of 17 time points and a layout
    of 18 auxiliary channels: the 18th (output channel 17) is left unwritten, in a
    cycle that runs to its end. -/
theorem aux_beyond_history_unwritten_witness :
    (∀ i : Nat,
      (filled ieeeOps (List.replicate 18 ChannelType.AUX_CHANNEL)
        (SourceState.fresh 1 blankState) (constArray2 none)
        (decoded ieeeOps (SourceState.fresh 1 blankState) (replyConstant 17))).buffer 17 i
        = (constArray2 none : Nat → Nat → Option ℚ) 17 i) ∧
    ∃ s' buffer',
      process ieeeOps (List.replicate 18 ChannelType.AUX_CHANNEL)
          (SourceState.fresh 1 blankState) (constArray2 none) (replyConstant 17)
        = some (s', buffer',
            (decoded ieeeOps (SourceState.fresh 1 blankState) (replyConstant 17)).length) ∧
      ∀ i : Nat, buffer' 17 i = (constArray2 none : Nat → Nat → Option ℚ) 17 i :=
  ⟨(aux_beyond_history_unwritten ieeeOps (List.replicate 18 ChannelType.AUX_CHANNEL)
      (SourceState.fresh 1 blankState) (constArray2 none) (replyConstant 17)
      (by decide!) 17 17 (by decide) (by decide) (by decide)).1,
   (aux_beyond_history_unwritten ieeeOps (List.replicate 18 ChannelType.AUX_CHANNEL)
      (SourceState.fresh 1 blankState) (constArray2 none) (replyConstant 17)
      (by decide!) 17 17 (by decide) (by decide) (by decide)).2
      (by decide!) (by decide!) (by decide!)⟩

end SummitSource

/-! ## `process`: layouts on which the channel loop stays inside `INSData` -/

namespace SummitSource

/-- With at least one device channel, and every headstage channel of the remaining
    layout at an output index below the device channel count, the channel loop reads
    no row beyond `INSData`. -/
theorem channelLoop_in_bounds {F : Type} (ops : FloatOps F) (s : SourceState F) (L : Int)
    (hn : 0 < s.nChans) (channels : List ChannelType) (iChan : Nat) (st : FillState F)
    (hsf : st.fault = false) (hc : st.iChanHist = 0 ∨ st.iHist = 0)
    (hlay : ∀ p, channels[p]? = some ChannelType.HEADSTAGE_CHANNEL → iChan + p < s.nChans) :
    (channelLoop ops s L channels iChan st).fault = false := by
  induction channels generalizing iChan st with
  | nil => exact hsf
  | cons t rest ih =>
    show (channelLoop ops s L rest (iChan + 1) (channelCase ops s L t iChan st)).fault = false
    have hlay' : ∀ p, rest[p]? = some ChannelType.HEADSTAGE_CHANNEL →
        iChan + 1 + p < s.nChans := by
      intro p hp
      have := hlay (p + 1) (by simpa using hp)
      omega
    cases t with
    | HEADSTAGE_CHANNEL =>
      rw [channelCase_headstage ops s L iChan st hsf]
      have h0 := hlay 0 (by simp)
      have hcur := headstageCase_cursors ops s L iChan st
      apply ih (iChan + 1) _ _ (by rw [hcur.1, hcur.2]; exact hc) hlay'
      unfold headstageCase
      split_ifs with h1 h2
      · exact hsf
      · exact absurd h2.2 (by omega)
      · exact hsf
    | AUX_CHANNEL =>
      rw [channelCase_aux ops s L iChan st hsf]
      have key : (auxCase ops s L iChan st).fault = false ∧
          ((auxCase ops s L iChan st).iChanHist = 0 ∨ (auxCase ops s L iChan st).iHist = 0) := by
        by_cases h1 : (st.iHist : Int) > L - 1
        · unfold auxCase
          rw [if_pos h1]
          by_cases h2 : 1 ≤ L ∧ s.nChans ≤ st.iChanHist
          · exfalso
            rcases hc with hc | hc <;> omega
          · rw [if_neg h2]
            exact ⟨hsf, hc⟩
        · unfold auxCase
          rw [if_neg h1]
          dsimp only
          by_cases h3 : (st.iHist : Int) > s.m_featuresHistory
          · rw [if_pos h3, if_pos (show (0 : Nat) < st.iChanHist + 1 by omega)]
            exact ⟨hsf, Or.inr rfl⟩
          · rw [if_neg h3]
            by_cases h4 : st.iChanHist > 0
            · rw [if_pos h4]
              exact ⟨hsf, hc⟩
            · rw [if_neg h4, if_neg (show ¬ s.nChans ≤ st.iChanHist by omega)]
              exact ⟨hsf, Or.inl (show st.iChanHist = 0 by omega)⟩
      exact ih (iChan + 1) _ key.1 key.2 hlay'
    | ADC_CHANNEL =>
      rw [channelCase_adc]
      exact ih (iChan + 1) st hsf hc hlay'

/-- A layout side condition under which the channel loop of a cycle runs to its end:
    the device has at least one channel and every headstage output channel has an
    output index below the device channel count (as when the headstage channels come
    first and are no more than the device channels). -/
theorem filled_in_bounds {F : Type} (ops : FloatOps F) (channels : List ChannelType)
    (s : SourceState F) (buffer : Nat → Nat → F) (d : Deserialized F)
    (hn : 0 < s.nChans)
    (hlay : ∀ p, channels[p]? = some ChannelType.HEADSTAGE_CHANNEL → p < s.nChans) :
    (filled ops channels s buffer d).fault = false := by
  unfold filled
  exact channelLoop_in_bounds ops (counted ops s d) d.length hn channels 0 _ rfl (Or.inl rfl)
    (by intro p hp; rw [Nat.zero_add]; exact hlay p hp)

end SummitSource

/-! ## `process`: packet numbers that do not decrease -/

namespace SummitSource

/-- The counter update of lines 154-161 in terms of its branch condition. -/
theorem countSamples_branch (counter prev first pointCount nominal : Int) :
    countSamples counter prev first pointCount nominal =
      if gapBranch prev first then
        wrap32 (counter + wrap32 (nominal * wrap32 (wrap32 (prev - first) - 1)))
      else wrap32 (counter + pointCount) := rfl

/-- When the subtraction does not overflow, the gap branch is taken exactly when the
    first packet number of the cycle is at least 2 smaller than the stored previous
    one. -/
theorem gapBranch_iff (prev first : Int) (h : fitsInt32 (prev - first)) :
    gapBranch prev first ↔ first + 2 ≤ prev := by
  unfold gapBranch
  rw [wrap32_of_fits h]
  omega

/-- C13 fails on the code: the subtraction of line 154 is a 32-bit `int` subtraction.
    With the stored previous packet number `-2147483648` and first packet number 1
    (so `first ≥ prev`) it wraps to `2147483647 > 1`: the gap branch is taken although
    `first` is not 2 smaller than `prev`, and the counter, from 0 with nominal packet
    size 1, goes up by `2147483646`, not by the `pointCount` of 5. -/
theorem forward_jump_takes_gap_branch :
    (-2147483648 : Int) ≤ 1 ∧
    gapBranch (-2147483648) 1 ∧
    ¬ ((1 : Int) + 2 ≤ -2147483648) ∧
    countSamples 0 (-2147483648) 1 5 1 - 0 = 2147483646 ∧
    countSamples 0 (-2147483648) 1 5 1 - 0 ≠ 5 := by
  decide

/-- C13 as amended. In one cycle that completes, with `prev` the stored previous
    packet number and `first` the first packet number of the cycle, both 32-bit `int`
    values whose `int` difference `prev - first` does not overflow: when
    `first ≥ prev`, however far ahead, and the new counter value does not overflow,
    the cumulative sample counter advances by exactly the decoded `pointCount`; and
    the branch that adds whole nominal packets is taken if and only if `first` is at
    least 2 smaller than `prev`. -/
theorem forward_packets_advance {F : Type} (ops : FloatOps F) (channels : List ChannelType)
    (s : SourceState F) (buffer : Nat → Nat → F) (reply : List Byte)
    (hdec : (decoded ops s reply).overrun = false)
    (hthrow : (decoded ops s reply).threw = false)
    (hfill : (filled ops channels s buffer (decoded ops s reply)).fault = false) :
    ∃ s' buffer' pointCount,
      process ops channels s buffer reply = some (s', buffer', pointCount) ∧
      pointCount = (decoded ops s reply).length ∧
      s'.packetNumbers = (decoded ops s reply).packNums ∧
      (s'.m_sampleCounter =
        if gapBranch s.m_packetNumPrev (s'.packetNumbers 0) then
          wrap32 (s.m_sampleCounter
            + wrap32 (s.m_packetDropSize
              * wrap32 (wrap32 (s.m_packetNumPrev - s'.packetNumbers 0) - 1)))
        else wrap32 (s.m_sampleCounter + pointCount)) ∧
      (fitsInt32 (s.m_packetNumPrev - s'.packetNumbers 0) →
        s.m_packetNumPrev ≤ s'.packetNumbers 0 →
        fitsInt32 (s.m_sampleCounter + pointCount) →
        s'.m_sampleCounter - s.m_sampleCounter = pointCount) ∧
      (fitsInt32 (s.m_packetNumPrev - s'.packetNumbers 0) →
        (gapBranch s.m_packetNumPrev (s'.packetNumbers 0) ↔
          s'.packetNumbers 0 + 2 ≤ s.m_packetNumPrev)) ∧
      ∀ counter prev first pc nominal : Int, fitsInt32 (prev - first) →
        (prev ≤ first → fitsInt32 (counter + pc) →
          countSamples counter prev first pc nominal - counter = pc) ∧
        (gapBranch prev first ↔ first + 2 ≤ prev) := by
  refine ⟨_, _, _, process_completes ops channels s buffer reply hdec hthrow hfill, rfl, rfl,
    rfl, ?_, ?_, ?_⟩
  · intro hsub h hsum
    have h' : s.m_packetNumPrev ≤ (decoded ops s reply).packNums 0 := h
    exact (countSamples_cases s.m_sampleCounter s.m_packetNumPrev
      ((decoded ops s reply).packNums 0) (decoded ops s reply).length s.m_packetDropSize
      hsub).1 (by omega) hsum
  · intro hsub
    exact gapBranch_iff _ _ hsub
  · intro counter prev first pc nominal hsub
    exact ⟨fun h hsum => (countSamples_cases counter prev first pc nominal hsub).1
      (by omega) hsum, gapBranch_iff prev first hsub⟩

/-- C13 as amended, on the two-point packet: the stored previous packet number is 0
    and the first packet number of the cycle is 7, a forward jump. -/
theorem forward_packets_advance_witness :
    ∃ s' buffer' pointCount,
      process ieeeOps [ChannelType.HEADSTAGE_CHANNEL] (SourceState.fresh 1 blankState)
          (constArray2 none) replyTwoPoints = some (s', buffer', pointCount) ∧
      pointCount = (decoded ieeeOps (SourceState.fresh 1 blankState) replyTwoPoints).length ∧
      s'.packetNumbers
        = (decoded ieeeOps (SourceState.fresh 1 blankState) replyTwoPoints).packNums ∧
      (s'.m_sampleCounter =
        if gapBranch (SourceState.fresh 1 blankState).m_packetNumPrev (s'.packetNumbers 0) then
          wrap32 ((SourceState.fresh 1 blankState).m_sampleCounter
            + wrap32 ((SourceState.fresh 1 blankState).m_packetDropSize
              * wrap32 (wrap32 ((SourceState.fresh 1 blankState).m_packetNumPrev
                  - s'.packetNumbers 0) - 1)))
        else wrap32 ((SourceState.fresh 1 blankState).m_sampleCounter + pointCount)) ∧
      (fitsInt32 ((SourceState.fresh 1 blankState).m_packetNumPrev - s'.packetNumbers 0) →
        (SourceState.fresh 1 blankState).m_packetNumPrev ≤ s'.packetNumbers 0 →
        fitsInt32 ((SourceState.fresh 1 blankState).m_sampleCounter + pointCount) →
        s'.m_sampleCounter - (SourceState.fresh 1 blankState).m_sampleCounter = pointCount) ∧
      (fitsInt32 ((SourceState.fresh 1 blankState).m_packetNumPrev - s'.packetNumbers 0) →
        (gapBranch (SourceState.fresh 1 blankState).m_packetNumPrev (s'.packetNumbers 0) ↔
          s'.packetNumbers 0 + 2 ≤ (SourceState.fresh 1 blankState).m_packetNumPrev)) ∧
      ∀ counter prev first pc nominal : Int, fitsInt32 (prev - first) →
        (prev ≤ first → fitsInt32 (counter + pc) →
          countSamples counter prev first pc nominal - counter = pc) ∧
        (gapBranch prev first ↔ first + 2 ≤ prev) :=
  forward_packets_advance ieeeOps [ChannelType.HEADSTAGE_CHANNEL]
    (SourceState.fresh 1 blankState) (constArray2 none) replyTwoPoints
    (by decide) (by decide) (by decide)

end SummitSource

/-! ## `SummitStimSink::process`: the hold after a switch -/

namespace SummitStimSink

/-- A tick with samples behaves the same whatever their number. -/
theorem process_nonempty (s : SinkState) (nSamples x : Int) (h : nSamples ≠ 0) :
    process s nSamples x = process s 1 x := by
  simp [process, h]

/-- A tick with samples publishes the class it stores as the previous class. -/
theorem process_publishes_prev (s : SinkState) (x : Int) :
    (process s 1 x).2 = some (process s 1 x).1.m_prevClass := by
  by_cases h : s.m_loop < 11
  · rw [process_suppressed s x h]
  · by_cases hx : s.m_prevClass = x
    · rw [process_same s x h hx.symm]
    · rw [process_switch s x h hx]

/-- Outside the suppression window a tick publishes its own raw class. -/
theorem process_released (s : SinkState) (x : Int) (h : ¬ s.m_loop < 11) :
    (process s 1 x).2 = some x := by
  by_cases hx : s.m_prevClass = x
  · rw [process_same s x h hx.symm]
  · rw [process_switch s x h hx]

/-- A tick that publishes a class other than the previous one leaves the counter at 1. -/
theorem process_changed (s : SinkState) (x : Int)
    (h : (process s 1 x).2 ≠ some s.m_prevClass) :
    (process s 1 x).1 = { m_class := x, m_loop := 1, m_prevClass := x } ∧
      (process s 1 x).2 = some x := by
  by_cases hl : s.m_loop < 11
  · rw [process_suppressed s x hl] at h
    exact absurd rfl h
  · by_cases hx : s.m_prevClass = x
    · rw [process_same s x hl hx.symm, hx] at h
      exact absurd rfl h
    · rw [process_switch s x hl hx]
      exact ⟨rfl, rfl⟩

/-- The state `i` ticks after a switch to class `c`, for `i ≤ 5`: the counter has gone
    up by two per tick. -/
theorem ticks_after_switch (s : SinkState) (raw : Nat → Int) (m : Nat) (c : Int)
    (h : ticks s raw m = { m_class := c, m_loop := 1, m_prevClass := c }) (i : Nat)
    (hi : i ≤ 5) :
    ticks s raw (m + i) = { m_class := c, m_loop := 1 + 2 * (i : Int), m_prevClass := c } := by
  induction i with
  | zero => simpa using h
  | succ i ih =>
    have ih' := ih (by omega)
    show (process (ticks s raw (m + i)) 1 (raw (m + i))).1 = _
    rw [ih', process_suppressed _ _ (by show (1 : Int) + 2 * (i : Int) < 11; omega)]
    have e : (1 : Int) + 2 * (i : Int) + 1 + 1 = 1 + 2 * ((i + 1 : Nat) : Int) := by omega
    show ({ m_class := c, m_loop := 1 + 2 * (i : Int) + 1 + 1, m_prevClass := c } : SinkState) = _
    rw [e]

/-- C12. In a run of non-empty ticks from any sink state and with any raw input: if
    the class published at a tick differs from the class published at the tick before
    it, then the next 5 ticks publish that same class whatever their raw input is, the
    debounce counter standing at 1, 3, 5, 7, 9 before them and at 11 before the 6th
    following tick, and the 6th following tick publishes its own raw class. -/
theorem hold_five_after_switch (s : SinkState) (raw : Nat → Int) (n : Nat)
    (hswitch : published s raw (n + 1) ≠ published s raw n) :
    (∀ i, i < 5 → published s raw (n + 2 + i) = published s raw (n + 1)) ∧
    (∀ i, i ≤ 5 → (ticks s raw (n + 2 + i)).m_loop = 1 + 2 * (i : Int)) ∧
    published s raw (n + 7) = some (raw (n + 7)) := by
  have hprev : published s raw n = some (ticks s raw (n + 1)).m_prevClass :=
    process_publishes_prev (ticks s raw n) (raw n)
  rw [hprev] at hswitch
  obtain ⟨hst, hpub⟩ := process_changed (ticks s raw (n + 1)) (raw (n + 1)) hswitch
  have hstate := ticks_after_switch s raw (n + 2) (raw (n + 1)) hst
  refine ⟨?_, ?_, ?_⟩
  · intro i hi
    show (process (ticks s raw (n + 2 + i)) 1 (raw (n + 2 + i))).2
      = (process (ticks s raw (n + 1)) 1 (raw (n + 1))).2
    rw [hpub, hstate i (by omega),
      process_suppressed _ _ (by show (1 : Int) + 2 * (i : Int) < 11; omega)]
  · intro i hi
    rw [hstate i hi]
  · show (process (ticks s raw (n + 2 + 5)) 1 (raw (n + 7))).2 = _
    rw [hstate 5 (by omega)]
    exact process_released _ _ (by show ¬ ((1 : Int) + 2 * ((5 : Nat) : Int) < 11); omega)

/-- C12 on the run of C5 (raw class 0 up to cycle 4, 1 from cycle 5 on): the switch is
    published at cycle 6, so `n = 5`. -/
theorem hold_five_after_switch_witness :
    (∀ i, i < 5 → published (freshSink 0 0) (changeAt 5 0 1) (5 + 2 + i)
        = published (freshSink 0 0) (changeAt 5 0 1) (5 + 1)) ∧
    (∀ i, i ≤ 5 →
        (ticks (freshSink 0 0) (changeAt 5 0 1) (5 + 2 + i)).m_loop = 1 + 2 * (i : Int)) ∧
    published (freshSink 0 0) (changeAt 5 0 1) (5 + 7) = some (changeAt 5 0 1 (5 + 7)) :=
  hold_five_after_switch (freshSink 0 0) (changeAt 5 0 1) 5 (by decide)

end SummitStimSink
